import Mathlib

/-
Verification of the MareaPalestina duplicate-detection and dataset-merging
engine. The definitions below are a shallow embedding of the JavaScript
sources (detect-duplicates-main.js, merge-datasets.js, process-spread1.js,
standardize-spread2.js): strings become Lean strings over List Char, JS
number values reachable in this code (exact fractions produced by the
similarity scorer, integer timestamps) are modelled exactly, arrays become
lists, and the mutable Set objects become functional accumulator lists with
the same membership semantics. The theorems at the end of the file settle
the frozen claims about this program.
-/

/-- Exact value of a JS number as an unreduced fraction num/den with den
positive. The similarity scorer only ever produces fractions of machine
integers, and every comparison in the sources is a plain numeric comparison,
modelled by cross multiplication. -/
structure JsNum where
  num : Int
  den : Nat
deriving DecidableEq, Repr

/-- Numeric less-or-equal on fraction values, by cross multiplication. -/
def JsNum.leB (a b : JsNum) : Bool := decide (a.num * (b.den : Int) ≤ b.num * (a.den : Int))

/-- The whitespace class of JS regular expressions (the class backslash-s),
which coincides with the character set removed by String.prototype.trim:
tab through carriage return, space, no-break space, and the Unicode
space separators, line separators and BOM. -/
def jsIsSpace (c : Char) : Bool :=
  decide ((9 ≤ c.toNat ∧ c.toNat ≤ 13) ∨ c.toNat = 32 ∨ c.toNat = 160 ∨ c.toNat = 5760 ∨
    (8192 ≤ c.toNat ∧ c.toNat ≤ 8202) ∨ c.toNat = 8232 ∨ c.toNat = 8233 ∨
    c.toNat = 8239 ∨ c.toNat = 8287 ∨ c.toNat = 12288 ∨ c.toNat = 65279)

/-- The word class of JS regular expressions (the class backslash-w):
ASCII letters, digits and underscore. -/
def jsIsWordChar (c : Char) : Bool :=
  decide (('a' ≤ c ∧ c ≤ 'z') ∨ ('A' ≤ c ∧ c ≤ 'Z') ∨ ('0' ≤ c ∧ c ≤ '9') ∨ c = '_')

/-- ASCII lowering of one character. The sources only lowercase ASCII
data on every path exercised here; full Unicode case mapping is out of
scope of this model. -/
def jsToLowerChar (c : Char) : Char :=
  if 'A' ≤ c ∧ c ≤ 'Z' then Char.ofNat (c.toNat + 32) else c

/-- Models String.prototype.toLowerCase on the character list. -/
def jsToLower (cs : List Char) : List Char := cs.map jsToLowerChar

/-- Models String.prototype.trim: drop the JS whitespace class from both
ends of the character list. -/
def jsTrim (cs : List Char) : List Char :=
  ((cs.dropWhile jsIsSpace).reverse.dropWhile jsIsSpace).reverse

/-- Models a global regex replacement of one-or-more-whitespace by a single
space: every maximal run of JS whitespace becomes one ordinary space. -/
def collapseSpaces : List Char → List Char
  | [] => []
  | [c] => if jsIsSpace c then [' '] else [c]
  | c :: d :: rest =>
    if jsIsSpace c then
      if jsIsSpace d then collapseSpaces (d :: rest)
      else ' ' :: collapseSpaces (d :: rest)
    else c :: collapseSpaces (d :: rest)

/-- Flushes one maximal run of word characters: the run is deleted when it
equals one of the listed words, otherwise kept. -/
def flushRun (ws : List (List Char)) (cur : List Char) : List Char :=
  if cur ≠ [] ∧ cur ∈ ws then [] else cur

/-- Worker for stripWordRuns, accumulating the current maximal run of word
characters in cur. -/
def stripRunsGo (ws : List (List Char)) (cur : List Char) : List Char → List Char
  | [] => flushRun ws cur
  | c :: rest =>
    if jsIsWordChar c then stripRunsGo ws (cur ++ [c]) rest
    else flushRun ws cur ++ (c :: stripRunsGo ws [] rest)

/-- Models a global replacement of a word-boundary-delimited alternation by
the empty string, as in the two replace calls of normalizeCenterName. A
match of such a pattern is exactly a maximal run of word characters equal to
one of the alternatives, so the replacement deletes exactly those runs and
keeps all other characters. -/
def stripWordRuns (ws : List (List Char)) (cs : List Char) : List Char :=
  stripRunsGo ws [] cs

/-- The school-type abbreviations removed by normalizeCenterName. -/
def abbrevWords : List (List Char) :=
  ["ies".data, "ceip".data, "cep".data, "cee".data, "ieso".data, "cifp".data,
   "cpifp".data, "cea".data]

/-- The generic institution words removed by normalizeCenterName. -/
def institutionWords : List (List Char) :=
  ["instituto".data, "colegio".data, "centro".data, "escuela".data]

/-- Models the punctuation-stripping replacement of normalizeCenterName:
every character that is neither a word character nor JS whitespace becomes a
space. -/
def punctToSpace (cs : List Char) : List Char :=
  cs.map (fun c => if jsIsWordChar c = false ∧ jsIsSpace c = false then ' ' else c)

/-- Embeds normalizeCenterName from detect-duplicates-main.js lines 84-92
(merge-datasets.js lines 66-74 is an identical copy): lowercase, delete
school-type abbreviations and institution words as whole words, turn
punctuation into spaces, collapse whitespace and trim. -/
def normalizeCenterName (name : String) : String :=
  if name = "" then ""
  else
    String.mk (jsTrim (collapseSpaces (punctToSpace
      (stripWordRuns institutionWords (stripWordRuns abbrevWords (jsToLower name.data))))))

/-- Next row of the Levenshtein dynamic-programming matrix, given the
character c1 of the first string, the remaining characters of the second
string, the diagonal and left neighbours and the rest of the previous
row. Mirrors the inner loop of calculateSimilarity. -/
def levRowNext (c1 : Char) : List Char → Int → Int → List Int → List Int
  | [], _, _, _ => []
  | _ :: _, _, _, [] => []
  | c2 :: cs, diag, left, above :: aboveRest =>
    let cost : Int := if c1 = c2 then 0 else 1
    let cur := min (above + 1) (min (left + 1) (diag + cost))
    cur :: levRowNext c1 cs above cur aboveRest

/-- One row step of the Levenshtein matrix: the previous row gives the new
row, whose first entry is the previous first entry plus one. -/
def levRow (c1 : Char) (s2 : List Char) (prev : List Int) : List Int :=
  match prev with
  | [] => []
  | p0 :: prest => (p0 + 1) :: levRowNext c1 s2 p0 (p0 + 1) prest

/-- Levenshtein edit distance computed row by row, exactly as the matrix
loops of calculateSimilarity fill matrix[i][j] from matrix[i-1][j]+1,
matrix[i][j-1]+1 and matrix[i-1][j-1]+cost. -/
def levDistance (s1 s2 : List Char) : Int :=
  ((s1.foldl (fun prev c1 => levRow c1 s2 prev)
      ((List.range (s2.length + 1)).map (fun j => (j : Int)))).getLast?).getD 0

/-- Embeds calculateSimilarity from detect-duplicates-main.js lines 49-81
(merge-datasets.js lines 31-63 is an identical copy). Note that the falsy
guard on the raw inputs returns 0 whenever either argument is the empty
string, including when both are; the later len1 equals zero branch is only
reachable for whitespace-only inputs. -/
def calculateSimilarity (str1 str2 : String) : JsNum :=
  if str1 = "" ∨ str2 = "" then ⟨0, 1⟩
  else
    let s1 := jsTrim (jsToLower str1.data)
    let s2 := jsTrim (jsToLower str2.data)
    if s1 = s2 then ⟨1, 1⟩
    else
      let len1 := s1.length
      let len2 := s2.length
      if len1 = 0 then (if len2 = 0 then ⟨1, 1⟩ else ⟨0, 1⟩)
      else if len2 = 0 then ⟨0, 1⟩
      else
        let maxLen := max len1 len2
        ⟨(maxLen : Int) - levDistance s1 s2, maxLen⟩

/-- Embeds normalizeEmail from detect-duplicates-main.js lines 106-109:
lowercase plus trim, empty on falsy input. -/
def normalizeEmail (email : String) : String :=
  if email = "" then "" else String.mk (jsTrim (jsToLower email.data))

/-- Weight of one field in the completeness score: one point when the field
is non-empty after trimming, scaled by the field weight. -/
def fieldScore (w : Nat) (v : String) : Nat :=
  if jsTrim v.data ≠ [] then w else 0

/-- The record shape handled by detect-duplicates-main.js: the ten expected
columns, plus the three review-mode annotations that markDuplicatesForReview
attaches to processed records (absent, hence none, on freshly loaded
records). -/
structure Record where
  representative : String := ""
  center : String := ""
  email : String := ""
  department : String := ""
  locality : String := ""
  province : String := ""
  region : String := ""
  commitments : String := ""
  additional : String := ""
  date : String := ""
  duplicate_flag : Option String := none
  duplicate_count : Option Nat := none
  completeness_score : Option Nat := none
deriving DecidableEq, Repr, Inhabited

/-- Embeds createLocationKey from detect-duplicates-main.js lines 95-103:
the fields among locality, province and region that are non-empty after
trimming are joined with a pipe separator and the result lowercased. -/
def createLocationKey (record : Record) : String :=
  let parts := [record.locality, record.province, record.region].filter
    (fun part => decide (jsTrim part.data ≠ []))
  String.mk (jsToLower (String.intercalate " | " parts).data)

/-- Embeds calculateCompletenessScore from detect-duplicates-main.js lines
112-134: the sum of per-field weights over fields that are non-empty after
trimming. -/
def calculateCompletenessScore (record : Record) : Nat :=
  fieldScore 1 record.representative + fieldScore 2 record.center +
  fieldScore 3 record.email + fieldScore 1 record.department +
  fieldScore 1 record.locality + fieldScore 1 record.province +
  fieldScore 1 record.region + fieldScore 2 record.commitments +
  fieldScore 1 record.additional + fieldScore 1 record.date

/-- Day number of a Gregorian calendar date relative to 1970-01-01, for a
month already normalized to the range 1 to 12. This is the standard
civil-from-days correspondence used by the ECMAScript MakeDay operation. -/
def daysFromCivil (y m d : Int) : Int :=
  let yAdj := if m ≤ 2 then y - 1 else y
  let era := Int.fdiv yAdj 400
  let yoe := yAdj - era * 400
  let mp := Int.emod (m + 9) 12
  let doy := Int.fdiv (153 * mp + 2) 5 + d - 1
  let doe := yoe * 365 + Int.fdiv yoe 4 - Int.fdiv yoe 100 + doy
  era * 146097 + doe - 719468

/-- Models the ECMAScript MakeDay operation used by the Date constructor:
the month argument is zero-based and may lie outside 0 to 11, in which case
it carries into the year; the day argument is one-based and may also carry. -/
def makeDay (year month date : Int) : Int :=
  let ym := year + Int.fdiv month 12
  let mn := Int.emod month 12
  daysFromCivil ym (mn + 1) 1 + (date - 1)

/-- Models new Date(year, month, day) as a millisecond timestamp, including
the two-digit-year rule mapping years 0 to 99 onto 1900 to 1999. Timestamps
are taken in UTC; a constant local-time offset would cancel in every
comparison the program performs. -/
def jsNewDate (year month date : Int) : Int :=
  let y := if 0 ≤ year ∧ year ≤ 99 then 1900 + year else year
  makeDay y month date * 86400000

/-- Decides whether a character is an ASCII digit. -/
def isDigitChar (c : Char) : Bool := decide ('0' ≤ c ∧ c ≤ '9')

/-- Numeric value of an ASCII digit character. -/
def digitVal (c : Char) : Nat := c.toNat - 48

/-- The candidate parses of a one-or-two-digit regex group at the head of
the input, in greedy order: two digits first, then one, as the regex engine
backtracks. Each candidate carries its numeric value and the rest of the
input. -/
def take12 : List Char → List (Nat × List Char)
  | c1 :: c2 :: rest =>
    if isDigitChar c1 then
      if isDigitChar c2 then
        [(digitVal c1 * 10 + digitVal c2, rest), (digitVal c1, c2 :: rest)]
      else [(digitVal c1, c2 :: rest)]
    else []
  | [c1] => if isDigitChar c1 then [(digitVal c1, [])] else []
  | [] => []

/-- Parses an exactly-four-digit regex group at the head of the input. -/
def take4 : List Char → Option (Nat × List Char)
  | c1 :: c2 :: c3 :: c4 :: rest =>
    if isDigitChar c1 ∧ isDigitChar c2 ∧ isDigitChar c3 ∧ isDigitChar c4 then
      some (((digitVal c1 * 10 + digitVal c2) * 10 + digitVal c3) * 10 + digitVal c4, rest)
    else none
  | _ => none

/-- Consumes one expected literal character. -/
def expectChar (sep : Char) : List Char → Option (List Char)
  | c :: rest => if c = sep then some rest else none
  | [] => none

/-- First successful application of f over a list of candidates, modelling
regex backtracking order. -/
def firstSome (f : Nat × List Char → Option (Nat × Nat × Nat)) :
    List (Nat × List Char) → Option (Nat × Nat × Nat)
  | [] => none
  | a :: rest =>
    match f a with
    | some b => some b
    | none => firstSome f rest

/-- Matches, at the head of the input, the pattern of one-or-two digits,
a separator, one-or-two digits, the separator again, and four digits: the
first and third date regexes of parseDate with slash or dash separator. -/
def matchSepFmt (sep : Char) (cs : List Char) : Option (Nat × Nat × Nat) :=
  firstSome (fun p1 =>
    match expectChar sep p1.2 with
    | none => none
    | some r1 =>
      firstSome (fun p2 =>
        match expectChar sep p2.2 with
        | none => none
        | some r2 =>
          match take4 r2 with
          | some p3 => some (p1.1, p2.1, p3.1)
          | none => none) (take12 r1)) (take12 cs)

/-- Matches, at the head of the input, the pattern of four digits, a dash,
one-or-two digits, a dash and one-or-two digits: the second date regex of
parseDate. -/
def matchIsoFmt (cs : List Char) : Option (Nat × Nat × Nat) :=
  match take4 cs with
  | none => none
  | some p1 =>
    match expectChar '-' p1.2 with
    | none => none
    | some r1 =>
      firstSome (fun p2 =>
        match expectChar '-' p2.2 with
        | none => none
        | some r2 =>
          match take12 r2 with
          | (v, _) :: _ => some (p1.1, p2.1, v)
          | [] => none) (take12 r1)

/-- Unanchored regex search: try the matcher at every position from the
left, as String.prototype.match does for an unanchored pattern. -/
def searchMatch (f : List Char → Option (Nat × Nat × Nat)) : List Char → Option (Nat × Nat × Nat)
  | [] => none
  | c :: rest =>
    match f (c :: rest) with
    | some m => some m
    | none => searchMatch f rest

/-- Splits a character list at every occurrence of the separator, keeping
empty segments, as String.prototype.split with a one-character separator. -/
def splitOnChar (sep : Char) : List Char → List (List Char)
  | [] => [[]]
  | c :: rest =>
    let r := splitOnChar sep rest
    if c = sep then [] :: r
    else
      match r with
      | h :: t => (c :: h) :: t
      | [] => [[c]]

/-- Splits a character list at every dash. -/
def splitOnDash (cs : List Char) : List (List Char) := splitOnChar '-' cs

/-- Value of a non-empty all-digit character list. -/
def digitsVal (cs : List Char) : Option Nat :=
  if cs ≠ [] ∧ cs.all isDigitChar then
    some (cs.foldl (fun a c => a * 10 + digitVal c) 0)
  else none

/-- Models the host Date constructor applied to a string that matched none
of the three regexes of parseDate, on the portion mandated by the ECMAScript
Date Time String Format: the date-only forms of four-digit year, year-month
and year-month-day, interpreted in UTC. Strings outside this fragment are
mapped to an invalid date (none); host-specific parsing heuristics beyond
the mandated format are out of scope of this model. -/
def jsDateFromString (s : String) : Option Int :=
  match splitOnDash s.data with
  | [y] =>
    if y.length = 4 then
      match digitsVal y with
      | some yv => some (daysFromCivil yv 1 1 * 86400000)
      | none => none
    else none
  | [y, m] =>
    if y.length = 4 ∧ m.length = 2 then
      match digitsVal y, digitsVal m with
      | some yv, some mv =>
        if 1 ≤ mv ∧ mv ≤ 12 then some (daysFromCivil yv mv 1 * 86400000) else none
      | _, _ => none
    else none
  | [y, m, d] =>
    if y.length = 4 ∧ m.length = 2 ∧ d.length = 2 then
      match digitsVal y, digitsVal m, digitsVal d with
      | some yv, some mv, some dv =>
        if 1 ≤ mv ∧ mv ≤ 12 ∧ 1 ≤ dv ∧ dv ≤ 31 then
          some (daysFromCivil yv mv dv * 86400000)
        else none
      | _, _, _ => none
    else none
  | _ => none

/-- Embeds parseDate from detect-duplicates-main.js lines 137-158. A date
value is some timestamp in milliseconds, or none for an invalid date (the
NaN time value). A falsy input yields new Date(0), the epoch. Each regex is
searched anywhere in the string; on a match with groups g1, g2 and g3 the
code evaluates new Date(g3 or g1, (g1 or g2) - 1, g2 or g3), and since all
three groups are always non-empty digit strings this is uniformly
new Date(g3, g1 - 1, g2) for all three formats. When no regex matches, the
string is handed to the host Date constructor. -/
def parseDate (dateStr : String) : Option Int :=
  if dateStr = "" then some 0
  else
    match searchMatch (matchSepFmt '/') dateStr.data with
    | some m => some (jsNewDate m.2.2 ((m.1 : Int) - 1) m.2.1)
    | none =>
      match searchMatch matchIsoFmt dateStr.data with
      | some m => some (jsNewDate m.2.2 ((m.1 : Int) - 1) m.2.1)
      | none =>
        match searchMatch (matchSepFmt '-') dateStr.data with
        | some m => some (jsNewDate m.2.2 ((m.1 : Int) - 1) m.2.1)
        | none => jsDateFromString dateStr

/-- The similarity thresholds of the CONFIG object in
detect-duplicates-main.js lines 20-25. -/
structure Thresholds where
  centerName : JsNum
  location : JsNum
  email : JsNum
  representative : JsNum
deriving DecidableEq, Repr

/-- The default CONFIG thresholds: 0.85, 0.80, 0.95 and 0.90. -/
def defaultThresholds : Thresholds :=
  ⟨⟨85, 100⟩, ⟨80, 100⟩, ⟨95, 100⟩, ⟨90, 100⟩⟩

/-- One member of a duplicate group: the record together with its index in
the input collection, as pushed by findDuplicatesInDataset. -/
structure Entry where
  record : Record
  index : Nat
deriving DecidableEq, Repr

/-- One pairwise similarity report inside a duplicate group, as produced by
calculateGroupSimilarities. -/
structure SimilarityInfo where
  indices : Nat × Nat
  centerSimilarity : JsNum
  locationSimilarity : JsNum
  emailSimilarity : JsNum
  representativeSimilarity : JsNum
deriving DecidableEq, Repr

/-- A duplicate group as pushed by findDuplicatesInDataset lines 245-250:
a one-based group id, the member entries and the pairwise similarity
reports. -/
structure DuplicateGroup where
  groupId : Nat
  records : List Entry
  similarities : List SimilarityInfo
deriving DecidableEq, Repr

/-- Embeds areRecordsDuplicate from detect-duplicates-main.js lines 264-313.
The rules are tested in order: near-exact email when both records carry a
non-empty email, high center-name similarity, moderate center-name
similarity corroborated by location, and representative similarity
corroborated by location. -/
def areRecordsDuplicate (t : Thresholds) (record1 record2 : Record) : Bool :=
  if record1.email ≠ "" ∧ record2.email ≠ "" ∧
      jsTrim record1.email.data ≠ [] ∧ jsTrim record2.email.data ≠ [] ∧
      JsNum.leB t.email (calculateSimilarity (normalizeEmail record1.email)
        (normalizeEmail record2.email)) = true then
    true
  else
    let centerSimilarity := calculateSimilarity (normalizeCenterName record1.center)
      (normalizeCenterName record2.center)
    let locationSimilarity := calculateSimilarity (createLocationKey record1)
      (createLocationKey record2)
    if JsNum.leB t.centerName centerSimilarity then true
    else if JsNum.leB ⟨70, 100⟩ centerSimilarity ∧ JsNum.leB t.location locationSimilarity then
      true
    else if record1.representative ≠ "" ∧ record2.representative ≠ "" ∧
        JsNum.leB t.representative (calculateSimilarity
          (String.mk (jsTrim (jsToLower record1.representative.data)))
          (String.mk (jsTrim (jsToLower record2.representative.data)))) = true ∧
        JsNum.leB ⟨60, 100⟩ locationSimilarity = true then
      true
    else false

/-- The similarity report of one pair of group members, as pushed by
calculateGroupSimilarities lines 323-337; the email and representative
similarities fall back to 0 when either record lacks the field. -/
def pairSimilarities (e1 e2 : Entry) : SimilarityInfo :=
  { indices := (e1.index, e2.index)
    centerSimilarity := calculateSimilarity (normalizeCenterName e1.record.center)
      (normalizeCenterName e2.record.center)
    locationSimilarity := calculateSimilarity (createLocationKey e1.record)
      (createLocationKey e2.record)
    emailSimilarity :=
      if e1.record.email ≠ "" ∧ e2.record.email ≠ "" then
        calculateSimilarity (normalizeEmail e1.record.email) (normalizeEmail e2.record.email)
      else ⟨0, 1⟩
    representativeSimilarity :=
      if e1.record.representative ≠ "" ∧ e2.record.representative ≠ "" then
        calculateSimilarity (String.mk (jsToLower e1.record.representative.data))
          (String.mk (jsToLower e2.record.representative.data))
      else ⟨0, 1⟩ }

/-- Embeds calculateGroupSimilarities from detect-duplicates-main.js lines
315-342: the report of every pair of group members, in nested loop order. -/
def calculateGroupSimilarities : List Entry → List SimilarityInfo
  | [] => []
  | e :: rest => rest.map (pairSimilarities e) ++ calculateGroupSimilarities rest

/-- Pairs every list element with its position, starting at k, modelling
array index bookkeeping. -/
def withIdx (k : Nat) : List Record → List (Nat × Record)
  | [] => []
  | r :: rest => (k, r) :: withIdx (k + 1) rest

/-- The inner loop of findDuplicatesInDataset lines 234-243: scan the
remaining indexed records, skip indices already claimed in processed, and
collect every record classified as a duplicate of record1, claiming its
index. Returns the collected entries and the updated claimed set. -/
def scanForDuplicates (t : Thresholds) (record1 : Record) :
    List (Nat × Record) → List Nat → List Entry × List Nat
  | [], processed => ([], processed)
  | (j, record2) :: rest, processed =>
    if j ∈ processed then scanForDuplicates t record1 rest processed
    else if areRecordsDuplicate t record1 record2 then
      let res := scanForDuplicates t record1 rest (j :: processed)
      (⟨record2, j⟩ :: res.1, res.2)
    else scanForDuplicates t record1 rest processed

/-- The outer loop of findDuplicatesInDataset lines 228-258. Each unclaimed
index i seeds a scan of the later records against record i only; when the
scan found at least one duplicate, the seed and the found entries form a new
group whose id is one plus the number of groups so far, and the seed index
is claimed. The source loop stops before the last index; processing the last
index is equivalent, since its scan range is empty and a group is only
formed from two or more entries. -/
def detectLoop (t : Thresholds) : List (Nat × Record) → List Nat → List DuplicateGroup → List DuplicateGroup
  | [], _, groups => groups
  | (i, record1) :: rest, processed, groups =>
    if i ∈ processed then detectLoop t rest processed groups
    else
      let scan := scanForDuplicates t record1 rest processed
      if scan.1 = [] then detectLoop t rest scan.2 groups
      else
        let duplicates := Entry.mk record1 i :: scan.1
        detectLoop t rest (i :: scan.2)
          (groups ++ [⟨groups.length + 1, duplicates, calculateGroupSimilarities duplicates⟩])

/-- Embeds findDuplicatesInDataset from detect-duplicates-main.js lines
220-262: self-collection clustering over the indexed records with an empty
claimed set. -/
def findDuplicatesInDataset (t : Thresholds) (data : List Record) : List DuplicateGroup :=
  detectLoop t (withIdx 0 data) [] []

/-- An audit action as pushed by the duplicate handling strategies: a remove
entry referencing the kept record, a merge entry listing the absorbed
indices and resulting record, or a review mark. -/
inductive MergeAction where
  | remove (reason : String) (groupId : Nat) (removedIndex : Nat)
      (removedRecord keptRecord : Record)
  | merge (reason : String) (groupId : Nat) (baseIndex : Nat)
      (mergedIndices : List Nat) (mergedRecord : Record)
  | mark (reason : String) (groupId : Nat) (index : Nat) (record : Record)
deriving DecidableEq, Repr

/-- Comparator of removeOldestDuplicates lines 392-396 as a boolean order:
the comparison value dateB minus dateA is at most zero exactly when dateB is
at most dateA; when either date is invalid the comparison value is NaN,
which ECMAScript SortCompare treats as zero. -/
def leDateDesc (a b : Entry) : Bool :=
  match parseDate a.record.date, parseDate b.record.date with
  | some dateA, some dateB => decide (dateB ≤ dateA)
  | _, _ => true

/-- Comparator of removeNewestDuplicates lines 428-432: dateA minus dateB,
NaN again treated as zero. -/
def leDateAsc (a b : Entry) : Bool :=
  match parseDate a.record.date, parseDate b.record.date with
  | some dateA, some dateB => decide (dateA ≤ dateB)
  | _, _ => true

/-- Comparator of mergeDuplicates lines 464-472: completeness score
descending, then date descending. -/
def leMergeOrder (a b : Entry) : Bool :=
  let scoreA := calculateCompletenessScore a.record
  let scoreB := calculateCompletenessScore b.record
  if scoreB ≠ scoreA then decide (scoreB ≤ scoreA) else leDateDesc a b

/-- Stable insertion of one element into an already handled prefix: the
element goes after every element that compares at-or-before it. -/
def insertOrdered (le : Entry → Entry → Bool) (x : Entry) : List Entry → List Entry
  | [] => [x]
  | y :: ys => if le y x then y :: insertOrdered le x ys else x :: y :: ys

/-- Models Array.prototype.sort with a comparator, as a stable sort on the
boolean order le a b meaning the comparator value of (a, b) is at most zero.
ECMAScript sort is stable, and for the consistent comparators used here a
stable sort output is unique, so any stable sort models it exactly. -/
def jsArraySort (le : Entry → Entry → Bool) (l : List Entry) : List Entry :=
  l.foldl (fun acc x => insertOrdered le x acc) []

/-- Models Set.prototype.add on the index set: append the index unless
already present. -/
def jsSetAdd (s : List Nat) (x : Nat) : List Nat := if x ∈ s then s else s ++ [x]

/-- Models data.filter((record, index) => !indicesToRemove.has(index)): keep
exactly the records whose position is outside the removal set. -/
def removeByPositions (data : List Record) (indicesToRemove : List Nat) : List Record :=
  ((withIdx 0 data).filter (fun p => decide (p.1 ∉ indicesToRemove))).map Prod.snd

/-- Replaces the element at one position, leaving the list unchanged when
the position is out of range. -/
def updateAt {α : Type} : List α → Nat → (α → α) → List α
  | [], _, _ => []
  | r :: rest, 0, f => f r :: rest
  | r :: rest, n + 1, f => r :: updateAt rest n f

/-- The per-group body shared verbatim (up to comparator and reason string)
by removeOldestDuplicates lines 390-412 and removeNewestDuplicates lines
426-448: sort the group, keep the first record of the sorted order, and for
every other member claim its index for removal and push a remove action
referencing the kept record. -/
def removalStep (le : Entry → Entry → Bool) (reason : String)
    (st : List Nat × List MergeAction) (group : DuplicateGroup) :
    List Nat × List MergeAction :=
  match jsArraySort le group.records with
  | [] => st
  | kept :: restSorted =>
    restSorted.foldl (fun st2 e =>
      (jsSetAdd st2.1 e.index,
       st2.2 ++ [MergeAction.remove reason group.groupId e.index e.record kept.record])) st

/-- Embeds removeOldestDuplicates from detect-duplicates-main.js lines
385-419: per group, sort by date newest first, keep the newest, remove the
rest, then filter the collection by the collected removal positions. -/
def removeOldestDuplicates (data : List Record) (duplicateGroups : List DuplicateGroup) :
    List Record × List MergeAction :=
  let st := duplicateGroups.foldl (removalStep leDateDesc "older_duplicate") ([], [])
  (removeByPositions data st.1, st.2)

/-- Embeds removeNewestDuplicates from detect-duplicates-main.js lines
421-455: per group, sort by date oldest first, keep the oldest, remove the
rest. -/
def removeNewestDuplicates (data : List Record) (duplicateGroups : List DuplicateGroup) :
    List Record × List MergeAction :=
  let st := duplicateGroups.foldl (removalStep leDateAsc "newer_duplicate") ([], [])
  (removeByPositions data st.1, st.2)

/-- One step of the field-filling loop of mergeDuplicates lines 482-488: an
empty-after-trim base field takes the value of a non-empty-after-trim source
field. -/
def fillField (b m : String) : String :=
  if jsTrim b.data = [] ∧ jsTrim m.data ≠ [] then m else b

/-- The field-filling pass over one record to merge. The source iterates the
object keys of the record; the per-field updates are independent, so the
fixed field order used here is equivalent, and the numeric index metadata
fails the typeof string guard in the source and is never filled. -/
def fillMissingFields (merged r : Record) : Record :=
  { merged with
    representative := fillField merged.representative r.representative
    center := fillField merged.center r.center
    email := fillField merged.email r.email
    department := fillField merged.department r.department
    locality := fillField merged.locality r.locality
    province := fillField merged.province r.province
    region := fillField merged.region r.region
    commitments := fillField merged.commitments r.commitments
    additional := fillField merged.additional r.additional
    date := fillField merged.date r.date }

/-- The commitments union of mergeDuplicates lines 491-497: when the record
to merge has commitments differing from the current merged value, split both
on commas, trim the parts, take the insertion-ordered union and rejoin with
comma-space. -/
def combineCommitments (merged r : Record) : Record :=
  if r.commitments ≠ "" ∧ merged.commitments ≠ r.commitments then
    let existing := (splitOnChar ',' merged.commitments.data).map (fun s => String.mk (jsTrim s))
    let newOnes := (splitOnChar ',' r.commitments.data).map (fun s => String.mk (jsTrim s))
    let unioned := (existing ++ newOnes).foldl
      (fun acc x => if x ∈ acc then acc else acc ++ [x]) []
    { merged with commitments := String.intercalate ", " unioned }
  else merged

/-- The notes concatenation of mergeDuplicates lines 500-506: a differing
non-empty additional note is appended with a pipe separator, or adopted
outright when the merged note is empty. -/
def combineAdditional (merged r : Record) : Record :=
  if r.additional ≠ "" ∧ merged.additional ≠ r.additional then
    if merged.additional = "" then { merged with additional := r.additional }
    else { merged with additional := merged.additional ++ " | " ++ r.additional }
  else merged

/-- One iteration of the merge loop of mergeDuplicates lines 478-509 over a
single record: fill missing fields, then combine commitments, then combine
additional notes. -/
def mergeInto (merged : Record) (r : Record) : Record :=
  combineAdditional (combineCommitments (fillMissingFields merged r) r) r

/-- The per-group body of mergeDuplicates lines 462-522: sort the group by
completeness then date, absorb every non-base record into the base while
claiming its index for removal, write the merged record back at the base
position and push a merge action listing the absorbed indices. -/
def mergeStep (st : List Record × List Nat × List MergeAction) (group : DuplicateGroup) :
    List Record × List Nat × List MergeAction :=
  match jsArraySort leMergeOrder group.records with
  | [] => st
  | base :: restSorted =>
    let mt := restSorted.foldl (fun p e => (mergeInto p.1 e.record, jsSetAdd p.2 e.index))
      (base.record, st.2.1)
    (st.1.set base.index mt.1, mt.2,
     st.2.2 ++ [MergeAction.merge "duplicate_merge" group.groupId base.index
       (restSorted.map Entry.index) mt.1])

/-- Embeds mergeDuplicates from detect-duplicates-main.js lines 457-529. -/
def mergeDuplicates (data : List Record) (duplicateGroups : List DuplicateGroup) :
    List Record × List MergeAction :=
  let st := duplicateGroups.foldl mergeStep (data, [], [])
  (removeByPositions st.1 st.2.1, st.2.2)

/-- The per-group body of markDuplicatesForReview lines 536-550: annotate
the processed record at every member position with the group flag, the group
size and the completeness score of the member record, and push a mark
action. -/
def markStep (st : List Record × List MergeAction) (group : DuplicateGroup) :
    List Record × List MergeAction :=
  group.records.foldl (fun st2 e =>
    (updateAt st2.1 e.index (fun r =>
       { r with duplicate_flag := some (String.append "DUPLICATE_GROUP_" (toString group.groupId))
                duplicate_count := some group.records.length
                completeness_score := some (calculateCompletenessScore e.record) }),
     st2.2 ++ [MergeAction.mark "duplicate_review" group.groupId e.index e.record])) st

/-- Embeds markDuplicatesForReview from detect-duplicates-main.js lines
531-554: clone the collection (the identity on immutable values) and
annotate every group member in place; no record is removed. -/
def markDuplicatesForReview (data : List Record) (duplicateGroups : List DuplicateGroup) :
    List Record × List MergeAction :=
  duplicateGroups.foldl markStep (data.map (fun r => r), [])

/-- Embeds the strategy switch of processDuplicates from
detect-duplicates-main.js lines 348-383: the review case and the default
case of the switch both run markDuplicatesForReview, so every strategy
string outside the three removal strategies is processed as review. -/
def processDuplicates (strategy : String) (data : List Record)
    (duplicateGroups : List DuplicateGroup) : List Record × List MergeAction :=
  if strategy = "remove_oldest" then removeOldestDuplicates data duplicateGroups
  else if strategy = "remove_newest" then removeNewestDuplicates data duplicateGroups
  else if strategy = "merge" then mergeDuplicates data duplicateGroups
  else markDuplicatesForReview data duplicateGroups

/-- One detected cross-collection duplicate pair, as pushed by
findDuplicates in merge-datasets.js lines 181-189. -/
structure DupPair where
  spread1_record : Record
  spread2_record : Record
  spread1_index : Nat
  spread2_index : Nat
  name_similarity : JsNum
  location_similarity : JsNum
  match_reason : String
deriving DecidableEq, Repr

/-- The centerName threshold of SIMILARITY_THRESHOLDS in merge-datasets.js
line 22. -/
def crossThresholdCenterName : JsNum := ⟨85, 100⟩

/-- The location threshold of SIMILARITY_THRESHOLDS in merge-datasets.js
line 23. -/
def crossThresholdLocation : JsNum := ⟨80, 100⟩

/-- The inner loop of findDuplicates in merge-datasets.js lines 161-195:
scan the second collection and stop at the first record whose name
similarity reaches the centerName threshold, or whose name similarity
reaches 0.70 with a location similarity reaching the location threshold. -/
def crossScan (record1 : Record) (normalizedName1 location1 : String) (i : Nat) :
    List (Nat × Record) → Option DupPair
  | [] => none
  | (j, record2) :: rest =>
    let nameSimilarity := calculateSimilarity normalizedName1
      (normalizeCenterName record2.center)
    let locationSimilarity := calculateSimilarity location1 (createLocationKey record2)
    let isNameMatch := JsNum.leB crossThresholdCenterName nameSimilarity
    if isNameMatch || (JsNum.leB ⟨70, 100⟩ nameSimilarity &&
        JsNum.leB crossThresholdLocation locationSimilarity) then
      some ⟨record1, record2, i, j, nameSimilarity, locationSimilarity,
        if isNameMatch then "name_match" else "name_location_match"⟩
    else crossScan record1 normalizedName1 location1 i rest

/-- Embeds findDuplicates from merge-datasets.js lines 146-200:
cross-collection first-match detection, claiming each first-collection index
on its first match and passing unmatched records through. -/
def findDuplicates (spread1Data spread2Data : List Record) : List DupPair :=
  ((withIdx 0 spread1Data).foldl (fun (st : List DupPair × List Nat) p =>
    if p.1 ∈ st.2 then st
    else
      match crossScan p.2 (normalizeCenterName p.2.center) (createLocationKey p.2) p.1
          (withIdx 0 spread2Data) with
      | some d => (st.1 ++ [d], st.2 ++ [p.1])
      | none => st) ([], [])).1

/-- Embeds mergeDatasets from merge-datasets.js lines 206-229: all of the
second collection, followed by the first-collection records whose index is
in no duplicate pair. -/
def mergeDatasets (spread1Data spread2Data : List Record) (duplicates : List DupPair) :
    List Record :=
  spread2Data ++
    ((withIdx 0 spread1Data).filter
      (fun p => decide (p.1 ∉ duplicates.map DupPair.spread1_index))).map Prod.snd

/-- The word-joiner character U+2060, written literally inside the third
replace of cleanText. -/
def wordJoinerChar : Char := Char.ofNat 8288

/-- The no-break space U+00A0. -/
def nbspChar : Char := Char.ofNat 160

/-- The zero-width characters U+200B to U+200D and the BOM U+FEFF removed by
the final replace of cleanText. -/
def isZeroWidthOrBom (c : Char) : Bool :=
  decide ((8203 ≤ c.toNat ∧ c.toNat ≤ 8205) ∨ c.toNat = 65279)

/-- Models the anchored replace of a leading whitespace-wordjoiner-whitespace
run by the empty string: the pattern requires the word joiner, which must
appear at the first non-whitespace position, so the string is unchanged when
no such leading run exists. -/
def stripLeadingWordJoiner (cs : List Char) : List Char :=
  match cs.dropWhile jsIsSpace with
  | c :: rest => if c = wordJoinerChar then rest.dropWhile jsIsSpace else cs
  | [] => cs

/-- Embeds cleanText from process-spread1.js lines 45-53 (the copy in
standardize-spread2.js lines 905-913 is identical): trim, collapse
whitespace runs to single spaces, strip one leading word-joiner run, delete
word joiners, map no-break spaces to spaces (none remain after the collapse,
since the no-break space is regex whitespace) and delete the zero-width and
BOM characters. -/
def cleanText (text : String) : String :=
  if text = "" then ""
  else
    String.mk ((((stripLeadingWordJoiner (collapseSpaces (jsTrim text.data))).filter
        (fun c => decide (c ≠ wordJoinerChar))).map
        (fun c => if c = nbspChar then ' ' else c)).filter
        (fun c => !(isZeroWidthOrBom c)))

/-- The zero-width characters excluded by the amended idempotence claim:
the zero-width space family U+200B to U+200D, the word joiner U+2060 and the
BOM U+FEFF. -/
def zeroWidthChars : List Char :=
  [Char.ofNat 8203, Char.ofNat 8204, Char.ofNat 8205, Char.ofNat 8288, Char.ofNat 65279]

/-- Member indices of one duplicate group. -/
def groupIdxs (g : DuplicateGroup) : List Nat := g.records.map Entry.index

/-- Member indices of a list of duplicate groups, concatenated. -/
def allIdxs (gs : List DuplicateGroup) : List Nat := (gs.map groupIdxs).flatten

/-- Sum over the groups of the group size minus one: the number of records
every removal strategy is expected to drop. -/
def dupExcess (gs : List DuplicateGroup) : Nat :=
  (gs.map (fun g => g.records.length - 1)).sum

/-- Test record A of the non-transitivity scenario: only a center name, at
Levenshtein distance 1 from B and 2 from C. -/
def recA : Record := { center := "aaaaaaaaaa" }

/-- Test record B of the non-transitivity scenario. -/
def recB : Record := { center := "aaaaaaaaab" }

/-- Test record C of the non-transitivity scenario: matches B directly but
not A. -/
def recC : Record := { center := "aaaaaaaabb" }

/-- Group member entry for record A at index 0. -/
def entryA : Entry := ⟨recA, 0⟩

/-- Group member entry for record B at index 1. -/
def entryB : Entry := ⟨recB, 1⟩

/-- The duplicate group formed from A and B by the clustering pass. -/
def groupAB : DuplicateGroup :=
  ⟨1, [entryA, entryB], calculateGroupSimilarities [entryA, entryB]⟩

/-- Scenario record with the school-type abbreviation in the center name. -/
def recIES : Record := { center := "IES Lope de Vega", locality := "Madrid" }

/-- Scenario record with the bare center name. -/
def recLope : Record := { center := "Lope de Vega", locality := "Madrid" }

/-- Scenario record dated 01/03/2024, parsed as the third of January 2024 by
the month-first reading of the slash regex. -/
def dateRecOld : Record := { center := "Centro Uno", date := "01/03/2024" }

/-- Scenario record dated 15/01/2024, parsed as the first of March 2025
after month overflow, hence the newer of the two. -/
def dateRecNew : Record := { center := "Centro Uno", date := "15/01/2024" }

/-- The two-record group of the remove-oldest scenario. -/
def grpDates : DuplicateGroup :=
  ⟨1, [⟨dateRecOld, 0⟩, ⟨dateRecNew, 1⟩],
   calculateGroupSimilarities [⟨dateRecOld, 0⟩, ⟨dateRecNew, 1⟩]⟩

/-- Witness record sharing an email with dissimilarEmailRec2 but with a
completely different center name. -/
def dissimilarEmailRec1 : Record := { center := "Colegio San Jose", email := "a@x.com" }

/-- Witness record sharing an email with dissimilarEmailRec1. -/
def dissimilarEmailRec2 : Record := { center := "zzz qqq www", email := "a@x.com" }

/-- C1: for three records A, B, C in index order where the classifier
accepts (A,B) and (B,C) but rejects (A,C), self-collection clustering yields
exactly one group containing A at index 0 and B at index 1, and C at index 2
belongs to no group: grouping is first-match against the group seed, not
transitive closure. -/
theorem claim_C1_first_match_not_transitive :
    areRecordsDuplicate defaultThresholds recA recB = true ∧
    areRecordsDuplicate defaultThresholds recB recC = true ∧
    areRecordsDuplicate defaultThresholds recA recC = false ∧
    (findDuplicatesInDataset defaultThresholds [recA, recB, recC]).map
      (fun g => g.records.map Entry.index) = [[0, 1]] := by decide

/-- C2 counterexample: the claim states that the scorer returns 1.0 on two
empty strings, but the falsy guard of calculateSimilarity returns 0 there. -/
theorem claim_C2_counterexample : calculateSimilarity "" "" ≠ ⟨1, 1⟩ := by decide

/-- C2 amended: the scorer returns 0.0 whenever at least one of the two
inputs is the empty string, including when both are empty. -/
theorem claim_C2_both_or_one_empty (str1 str2 : String) (h : str1 = "" ∨ str2 = "") :
    calculateSimilarity str1 str2 = ⟨0, 1⟩ := by
  unfold calculateSimilarity
  rw [if_pos h]

/-- C2 witness: the amended statement applied to one concrete empty input. -/
theorem claim_C2_witness :
    (("" : String) = "" ∨ ("abc" : String) = "") ∧ calculateSimilarity "" "abc" = ⟨0, 1⟩ :=
  ⟨Or.inl rfl, claim_C2_both_or_one_empty "" "abc" (Or.inl rfl)⟩

/-- C3: whenever both records carry an email that is non-empty after
trimming and the similarity of the normalized emails reaches the email
threshold, the pair is classified as duplicate, whatever the center names
are: the email rule is checked first and cannot be vetoed. -/
theorem claim_C3_email_rule_first (t : Thresholds) (record1 record2 : Record)
    (h1 : jsTrim record1.email.data ≠ []) (h2 : jsTrim record2.email.data ≠ [])
    (hsim : JsNum.leB t.email (calculateSimilarity (normalizeEmail record1.email)
      (normalizeEmail record2.email)) = true) :
    areRecordsDuplicate t record1 record2 = true := by
  have e1 : record1.email ≠ "" := fun h => h1 (by rw [h]; rfl)
  have e2 : record2.email ≠ "" := fun h => h2 (by rw [h]; rfl)
  unfold areRecordsDuplicate
  rw [if_pos ⟨e1, e2, h1, h2, hsim⟩]

/-- C3 witness: two records sharing the email a@x.com but with unrelated
center names are classified as duplicates under the default thresholds. -/
theorem claim_C3_witness :
    jsTrim dissimilarEmailRec1.email.data ≠ [] ∧
    jsTrim dissimilarEmailRec2.email.data ≠ [] ∧
    JsNum.leB defaultThresholds.email
      (calculateSimilarity (normalizeEmail dissimilarEmailRec1.email)
        (normalizeEmail dissimilarEmailRec2.email)) = true ∧
    areRecordsDuplicate defaultThresholds dissimilarEmailRec1 dissimilarEmailRec2 = true :=
  ⟨by decide, by decide, by decide,
   claim_C3_email_rule_first defaultThresholds dissimilarEmailRec1 dissimilarEmailRec2
     (by decide) (by decide) (by decide)⟩

/-- C4: the records with centers IES Lope de Vega and Lope de Vega, both in
Madrid, are classified as one name_match duplicate pair under the 0.85
centerName threshold, with name similarity exactly 1 after normalization
strips the whole word ies, and merging keeps a single record for them. -/
theorem claim_C4_ies_normalization_match :
    (findDuplicates [recIES] [recLope]).map
      (fun d => (d.spread1_index, d.spread2_index, d.match_reason, d.name_similarity)) =
      [(0, 0, "name_match", ⟨1, 1⟩)] ∧
    mergeDatasets [recIES] [recLope] (findDuplicates [recIES] [recLope]) = [recLope] := by
  decide

/-- C6: applying remove_oldest to a two-record group dated 01/03/2024 and
15/01/2024 keeps the record dated 15/01/2024, removes the record dated
01/03/2024, and emits exactly one remove action referencing the kept
record. -/
theorem claim_C6_remove_oldest_scenario :
    removeOldestDuplicates [dateRecOld, dateRecNew] [grpDates] =
      ([dateRecNew], [MergeAction.remove "older_duplicate" 1 0 dateRecOld dateRecNew]) := by
  decide

/-- C8 counterexample: the input 2024 matches none of the three date
regexes, yet parseDate does not map it to the epoch: the host Date parser
yields the first of January 2024. -/
theorem claim_C8_counterexample : parseDate "2024" ≠ some 0 := by decide

/-- C8 amended: parseDate is total and never raises; absent (empty) input
maps to the epoch, but input matching none of the three regex patterns is
delegated to the host date parser, which can produce a non-epoch timestamp
or an invalid (NaN) date value rather than the epoch. -/
theorem claim_C8_fallback_behaviour :
    parseDate "" = some 0 ∧ parseDate "2024" = some 1704067200000 ∧
    parseDate "not a date" = none := by decide

/-- C9 counterexample: the unknown strategy name bogus_strategy is not
rejected: the engine processes the collection exactly as under review and
returns a processed collection of full length. -/
theorem claim_C9_counterexample :
    processDuplicates "bogus_strategy" [dateRecOld, dateRecNew] [grpDates] =
      markDuplicatesForReview [dateRecOld, dateRecNew] [grpDates] ∧
    (processDuplicates "bogus_strategy" [dateRecOld, dateRecNew] [grpDates]).1.length = 2 := by
  decide

/-- C9 amended: there is no configuration error path: every strategy name
other than remove_oldest, remove_newest and merge falls through the switch
default and processes the collection under the review policy. -/
theorem claim_C9_unknown_strategy_is_review (strategy : String) (data : List Record)
    (duplicateGroups : List DuplicateGroup) (h1 : strategy ≠ "remove_oldest")
    (h2 : strategy ≠ "remove_newest") (h3 : strategy ≠ "merge") :
    processDuplicates strategy data duplicateGroups =
      markDuplicatesForReview data duplicateGroups := by
  unfold processDuplicates
  rw [if_neg h1, if_neg h2, if_neg h3]

/-- C9 witness: the amended statement applied at a concrete unknown
strategy. -/
theorem claim_C9_witness :
    ("mystery" : String) ≠ "remove_oldest" ∧ ("mystery" : String) ≠ "remove_newest" ∧
    ("mystery" : String) ≠ "merge" ∧
    processDuplicates "mystery" [recA] [] = markDuplicatesForReview [recA] [] :=
  ⟨by decide, by decide, by decide,
   claim_C9_unknown_strategy_is_review "mystery" [recA] [] (by decide) (by decide) (by decide)⟩

/-- C7 counterexample: cleaning is not idempotent: on the input consisting
of a zero-width space, a space and the letter a, the first pass removes the
zero-width space only after whitespace handling, leaving a leading space
that a second pass then trims away. -/
theorem claim_C7_counterexample :
    cleanText (cleanText "\u200B a") ≠ cleanText "\u200B a" := by decide

/-- Every entry collected by the inner scan was classified as a duplicate of
the seed record record1 directly: the scan never compares against any other
group member. -/
theorem scanForDuplicates_all_dup (t : Thresholds) (record1 : Record) :
    ∀ (pairs : List (Nat × Record)) (processed : List Nat),
      ∀ e ∈ (scanForDuplicates t record1 pairs processed).1,
        areRecordsDuplicate t record1 e.record = true := by
  intro pairs
  induction pairs with
  | nil => intro processed e he; simp [scanForDuplicates] at he
  | cons p rest ih =>
    intro processed e he
    obtain ⟨j, record2⟩ := p
    simp only [scanForDuplicates] at he
    by_cases hj : j ∈ processed
    · rw [if_pos hj] at he; exact ih processed e he
    · rw [if_neg hj] at he
      by_cases hd : areRecordsDuplicate t record1 record2 = true
      · rw [if_pos hd] at he
        rcases List.mem_cons.mp he with h1 | h2
        · rw [h1]; exact hd
        · exact ih (j :: processed) e h2
      · rw [if_neg hd] at he; exact ih processed e he

/-- The star shape is an invariant of the outer clustering loop: every group
in the output decomposes into a seed entry followed by members that each
match the seed directly. -/
theorem detectLoop_star_shape (t : Thresholds) :
    ∀ (pairs : List (Nat × Record)) (processed : List Nat) (groups : List DuplicateGroup),
      (∀ g ∈ groups, ∃ seed rest, g.records = seed :: rest ∧
        ∀ e ∈ rest, areRecordsDuplicate t seed.record e.record = true) →
      ∀ g ∈ detectLoop t pairs processed groups, ∃ seed rest, g.records = seed :: rest ∧
        ∀ e ∈ rest, areRecordsDuplicate t seed.record e.record = true := by
  intro pairs
  induction pairs with
  | nil =>
    intro processed groups hinv g hg
    simp only [detectLoop] at hg
    exact hinv g hg
  | cons p rest ih =>
    intro processed groups hinv g hg
    obtain ⟨i, record1⟩ := p
    simp only [detectLoop] at hg
    by_cases hi : i ∈ processed
    · rw [if_pos hi] at hg; exact ih processed groups hinv g hg
    · rw [if_neg hi] at hg
      by_cases hempty : (scanForDuplicates t record1 rest processed).1 = []
      · rw [if_pos hempty] at hg; exact ih _ groups hinv g hg
      · rw [if_neg hempty] at hg
        apply ih _ _ _ g hg
        intro g2 hg2
        rcases List.mem_append.mp hg2 with h | h
        · exact hinv g2 h
        · rcases List.mem_singleton.mp h with rfl
          refine ⟨⟨record1, i⟩, (scanForDuplicates t record1 rest processed).1, rfl, ?_⟩
          intro e he
          exact scanForDuplicates_all_dup t record1 rest processed e he

/-- C10: every group produced by self-collection clustering is a star around
its first record: the member list decomposes into the seed followed by
members that each satisfy the pairwise classification directly against the
seed, so no record is ever admitted on the strength of matching a non-first
member. -/
theorem claim_C10_groups_are_stars (t : Thresholds) (data : List Record) :
    ∀ g ∈ findDuplicatesInDataset t data, ∃ seed rest, g.records = seed :: rest ∧
      ∀ e ∈ rest, areRecordsDuplicate t seed.record e.record = true := by
  intro g hg
  unfold findDuplicatesInDataset at hg
  exact detectLoop_star_shape t (withIdx 0 data) [] []
    (by intro g2 hg2; simp at hg2) g hg

/-- C10 witness: the star decomposition of the concrete group produced from
the three-record collection. -/
theorem claim_C10_witness :
    ∃ seed rest, groupAB.records = seed :: rest ∧
      ∀ e ∈ rest, areRecordsDuplicate defaultThresholds seed.record e.record = true :=
  claim_C10_groups_are_stars defaultThresholds [recA, recB, recC] groupAB (by decide)

/-- Projection of a literal entry. -/
theorem Entry_index_mk (r : Record) (i : Nat) : (Entry.mk r i).index = i := rfl

/-- Positions produced by withIdx lie in the expected half-open range. -/
theorem withIdx_fst_bound :
    ∀ (data : List Record) (k : Nat) (x : Nat),
      x ∈ (withIdx k data).map Prod.fst → k ≤ x ∧ x < k + data.length := by
  intro data
  induction data with
  | nil => intro k x hx; simp [withIdx] at hx
  | cons r rest ih =>
    intro k x hx
    simp only [withIdx, List.map_cons, List.mem_cons] at hx
    rcases hx with h | h
    · subst h; simp only [List.length_cons]; omega
    · have := ih (k + 1) x h
      simp only [List.length_cons]
      omega

/-- Positions produced by withIdx are pairwise distinct. -/
theorem withIdx_fst_nodup :
    ∀ (data : List Record) (k : Nat), ((withIdx k data).map Prod.fst).Nodup := by
  intro data
  induction data with
  | nil => intro k; simp [withIdx]
  | cons r rest ih =>
    intro k
    simp only [withIdx, List.map_cons]
    refine List.nodup_cons.mpr ⟨?_, ih (k + 1)⟩
    intro hmem
    have := withIdx_fst_bound rest (k + 1) k hmem
    omega

/-- Index bookkeeping of the inner scan: collected indices come from the
scanned pairs and were unclaimed, they are pairwise distinct, and the
returned claimed set is exactly the old one plus the collected indices. -/
theorem scanForDuplicates_idx_spec (t : Thresholds) (record1 : Record) :
    ∀ (pairs : List (Nat × Record)) (processed : List Nat),
      (∀ e ∈ (scanForDuplicates t record1 pairs processed).1,
        e.index ∈ pairs.map Prod.fst ∧ e.index ∉ processed) ∧
      ((scanForDuplicates t record1 pairs processed).1.map Entry.index).Nodup ∧
      (∀ x : Nat, x ∈ (scanForDuplicates t record1 pairs processed).2 ↔
        x ∈ processed ∨ x ∈ (scanForDuplicates t record1 pairs processed).1.map Entry.index) := by
  intro pairs
  induction pairs with
  | nil =>
    intro processed
    refine ⟨?_, ?_, ?_⟩ <;> simp [scanForDuplicates]
  | cons p rest ih =>
    intro processed
    obtain ⟨j, record2⟩ := p
    by_cases hj : j ∈ processed
    · have ihp := ih processed
      simp only [scanForDuplicates, if_pos hj, List.map_cons]
      exact ⟨fun e he => ⟨List.mem_cons_of_mem _ ((ihp.1 e he).1), (ihp.1 e he).2⟩,
        ihp.2.1, ihp.2.2⟩
    · by_cases hd : areRecordsDuplicate t record1 record2 = true
      · have ihj := ih (j :: processed)
        simp only [scanForDuplicates, if_neg hj, if_pos hd, List.map_cons, Entry_index_mk]
        refine ⟨?_, ?_, ?_⟩
        · intro e he
          rcases List.mem_cons.mp he with h1 | h2
          · subst h1
            exact ⟨by simp, hj⟩
          · exact ⟨List.mem_cons_of_mem _ ((ihj.1 e h2).1),
              fun hm => (ihj.1 e h2).2 (List.mem_cons_of_mem _ hm)⟩
        · refine List.nodup_cons.mpr ⟨?_, ihj.2.1⟩
          intro hmem
          rcases List.mem_map.mp hmem with ⟨e, he, hei⟩
          exact (ihj.1 e he).2 (by rw [← hei]; exact List.mem_cons_self _ _)
        · intro x
          rw [ihj.2.2 x]
          simp only [List.mem_cons]
          tauto
      · have ihp := ih processed
        simp only [scanForDuplicates, if_neg hj, if_neg hd, List.map_cons]
        exact ⟨fun e he => ⟨List.mem_cons_of_mem _ ((ihp.1 e he).1), (ihp.1 e he).2⟩,
          ihp.2.1, ihp.2.2⟩

/-- Appending one group appends its member indices. -/
theorem allIdxs_append (gs : List DuplicateGroup) (g : DuplicateGroup) :
    allIdxs (gs ++ [g]) = allIdxs gs ++ groupIdxs g := by
  simp [allIdxs]

/-- Index invariant of the outer clustering loop: starting from pairwise
distinct in-range positions and an accumulator whose member indices are
distinct, claimed and in range, the final groups have pairwise distinct
in-range member indices and at least two members each. -/
theorem detectLoop_idx_spec (t : Thresholds) (n : Nat) :
    ∀ (pairs : List (Nat × Record)) (processed : List Nat) (groups : List DuplicateGroup),
      (pairs.map Prod.fst).Nodup →
      (∀ x ∈ pairs.map Prod.fst, x < n) →
      (allIdxs groups).Nodup →
      (∀ x ∈ allIdxs groups, x < n ∧ x ∈ processed) →
      (∀ g ∈ groups, 2 ≤ g.records.length) →
      (allIdxs (detectLoop t pairs processed groups)).Nodup ∧
      (∀ x ∈ allIdxs (detectLoop t pairs processed groups), x < n) ∧
      (∀ g ∈ detectLoop t pairs processed groups, 2 ≤ g.records.length) := by
  intro pairs
  induction pairs with
  | nil =>
    intro processed groups h1 h2 h3 h4 h5
    simp only [detectLoop]
    exact ⟨h3, fun x hx => (h4 x hx).1, h5⟩
  | cons p rest ih =>
    intro processed groups h1 h2 h3 h4 h5
    obtain ⟨i, record1⟩ := p
    simp only [detectLoop]
    simp only [List.map_cons] at h1 h2
    have hrestnd : (rest.map Prod.fst).Nodup := (List.nodup_cons.mp h1).2
    have hinotrest : i ∉ rest.map Prod.fst := (List.nodup_cons.mp h1).1
    have hrestbd : ∀ x ∈ rest.map Prod.fst, x < n :=
      fun x hx => h2 x (List.mem_cons_of_mem _ hx)
    have hibd : i < n := h2 i (List.mem_cons_self _ _)
    by_cases hi : i ∈ processed
    · rw [if_pos hi]
      exact ih processed groups hrestnd hrestbd h3 h4 h5
    · rw [if_neg hi]
      have spec := scanForDuplicates_idx_spec t record1 rest processed
      by_cases hempty : (scanForDuplicates t record1 rest processed).1 = []
      · rw [if_pos hempty]
        apply ih _ groups hrestnd hrestbd h3 _ h5
        intro x hx
        exact ⟨(h4 x hx).1, (spec.2.2 x).mpr (Or.inl (h4 x hx).2)⟩
      · rw [if_neg hempty]
        have hscICsub : ∀ x ∈ (scanForDuplicates t record1 rest processed).1.map Entry.index,
            x ∈ rest.map Prod.fst ∧ x ∉ processed := by
          intro x hx
          rcases List.mem_map.mp hx with ⟨e, he, hei⟩
          rw [← hei]
          exact spec.1 e he
        apply ih _ _ hrestnd hrestbd
        · rw [allIdxs_append]
          refine List.Nodup.append h3 ?_ ?_
          · simp only [groupIdxs, List.map_cons, Entry_index_mk]
            refine List.nodup_cons.mpr ⟨?_, spec.2.1⟩
            intro hmem
            exact hinotrest (hscICsub i hmem).1
          · intro x hx1 hx2
            simp only [groupIdxs, List.map_cons, Entry_index_mk, List.mem_cons] at hx2
            rcases hx2 with h | h
            · subst h; exact hi (h4 x hx1).2
            · exact (hscICsub x h).2 (h4 x hx1).2
        · intro x hx
          rw [allIdxs_append] at hx
          rcases List.mem_append.mp hx with h | h
          · exact ⟨(h4 x h).1, List.mem_cons_of_mem _ ((spec.2.2 x).mpr (Or.inl (h4 x h).2))⟩
          · simp only [groupIdxs, List.map_cons, Entry_index_mk, List.mem_cons] at h
            rcases h with h | h
            · subst h; exact ⟨hibd, List.mem_cons_self _ _⟩
            · refine ⟨hrestbd x (hscICsub x h).1, ?_⟩
              exact List.mem_cons_of_mem _ ((spec.2.2 x).mpr (Or.inr h))
        · intro g hg
          rcases List.mem_append.mp hg with h | h
          · exact h5 g h
          · rcases List.mem_singleton.mp h with rfl
            simp only [List.length_cons]
            have : (scanForDuplicates t record1 rest processed).1.length ≠ 0 :=
              fun hl => hempty (List.eq_nil_of_length_eq_zero hl)
            omega

/-- The clustering pass always yields groups whose member indices are
pairwise distinct across all groups and within the collection range, with
at least two members per group. -/
theorem findDuplicatesInDataset_idx_spec (t : Thresholds) (data : List Record) :
    (allIdxs (findDuplicatesInDataset t data)).Nodup ∧
    (∀ x ∈ allIdxs (findDuplicatesInDataset t data), x < data.length) ∧
    (∀ g ∈ findDuplicatesInDataset t data, 2 ≤ g.records.length) := by
  unfold findDuplicatesInDataset
  apply detectLoop_idx_spec t data.length (withIdx 0 data) [] []
  · exact withIdx_fst_nodup data 0
  · intro x hx
    have := withIdx_fst_bound data 0 x hx
    omega
  · simp [allIdxs]
  · simp [allIdxs]
  · simp

/-- Ordered insertion permutes the element onto the list. -/
theorem insertOrdered_perm (le : Entry → Entry → Bool) (x : Entry) :
    ∀ l : List Entry, (insertOrdered le x l).Perm (x :: l) := by
  intro l
  induction l with
  | nil => simp [insertOrdered]
  | cons y ys ih =>
    simp only [insertOrdered]
    by_cases h : le y x = true
    · rw [if_pos h]
      exact (ih.cons y).trans (List.Perm.swap x y ys)
    · rw [if_neg h]

/-- The insertion-sort fold permutes the prefix and the remaining input. -/
theorem jsArraySortAux_perm (le : Entry → Entry → Bool) :
    ∀ (l acc : List Entry),
      (l.foldl (fun acc x => insertOrdered le x acc) acc).Perm (acc ++ l) := by
  intro l
  induction l with
  | nil => intro acc; simp
  | cons x xs ih =>
    intro acc
    simp only [List.foldl_cons]
    refine (ih (insertOrdered le x acc)).trans ?_
    refine (List.Perm.append_right xs (insertOrdered_perm le x acc)).trans ?_
    exact List.perm_middle.symm

/-- Sorting permutes the list. -/
theorem jsArraySort_perm (le : Entry → Entry → Bool) (l : List Entry) :
    (jsArraySort le l).Perm l := by
  unfold jsArraySort
  simpa using jsArraySortAux_perm le l []

/-- Adding pairwise distinct fresh indices to a set grows it by exactly
their number, preserves distinctness and yields the union membership. -/
theorem foldl_jsSetAdd_spec :
    ∀ (xs s : List Nat), xs.Nodup → (∀ x ∈ xs, x ∉ s) →
      (xs.foldl jsSetAdd s).length = s.length + xs.length ∧
      (∀ y, y ∈ xs.foldl jsSetAdd s ↔ y ∈ s ∨ y ∈ xs) ∧
      (s.Nodup → (xs.foldl jsSetAdd s).Nodup) := by
  intro xs
  induction xs with
  | nil =>
    intro s _ _
    refine ⟨by simp, by simp, fun h => h⟩
  | cons x xs ih =>
    intro s hnd hdisj
    have hx : x ∉ s := hdisj x (List.mem_cons_self _ _)
    have hstep : jsSetAdd s x = s ++ [x] := by simp [jsSetAdd, hx]
    have hxs_nd := (List.nodup_cons.mp hnd).2
    have hx_notin_xs := (List.nodup_cons.mp hnd).1
    have hdisj2 : ∀ y ∈ xs, y ∉ s ++ [x] := by
      intro y hy hmem
      rcases List.mem_append.mp hmem with h | h
      · exact hdisj y (List.mem_cons_of_mem _ hy) h
      · rcases List.mem_singleton.mp h with rfl
        exact hx_notin_xs hy
    have spec := ih (s ++ [x]) hxs_nd hdisj2
    rw [List.foldl_cons, hstep]
    refine ⟨?_, ?_, ?_⟩
    · rw [spec.1]
      simp only [List.length_append, List.length_cons, List.length_nil]
      omega
    · intro y
      rw [spec.2.1 y]
      simp only [List.mem_append, List.mem_singleton, List.mem_cons]
      tauto
    · intro hs
      apply spec.2.2
      refine List.Nodup.append hs (List.nodup_singleton x) ?_
      intro a ha hax
      rcases List.mem_singleton.mp hax with rfl
      exact hx ha

/-- The index-set component of the per-group removal fold is the plain
set-add fold over the member indices. -/
theorem removal_inner_fst (reason : String) (gid : Nat) (kept : Entry) :
    ∀ (es : List Entry) (st : List Nat × List MergeAction),
      (es.foldl (fun st2 e => (jsSetAdd st2.1 e.index,
        st2.2 ++ [MergeAction.remove reason gid e.index e.record kept.record])) st).1
      = (es.map Entry.index).foldl jsSetAdd st.1 := by
  intro es
  induction es with
  | nil => intro st; rfl
  | cons e es ih =>
    intro st
    simp only [List.foldl_cons, List.map_cons]
    exact ih _

/-- The index-set component of the per-group merge fold is the plain
set-add fold over the member indices. -/
theorem merge_inner_snd :
    ∀ (es : List Entry) (p : Record × List Nat),
      (es.foldl (fun p e => (mergeInto p.1 e.record, jsSetAdd p.2 e.index)) p).2
      = (es.map Entry.index).foldl jsSetAdd p.2 := by
  intro es
  induction es with
  | nil => intro p; rfl
  | cons e es ih =>
    intro p
    simp only [List.foldl_cons, List.map_cons]
    exact ih _

/-- Updating one position preserves the length. -/
theorem updateAt_length {α : Type} :
    ∀ (l : List α) (n : Nat) (f : α → α), (updateAt l n f).length = l.length := by
  intro l
  induction l with
  | nil => intro n f; rfl
  | cons a t ih =>
    intro n f
    cases n with
    | zero => rfl
    | succ m => simp only [updateAt, List.length_cons, ih]

/-- Member indices of a cons of groups. -/
theorem allIdxs_cons (g : DuplicateGroup) (gs : List DuplicateGroup) :
    allIdxs (g :: gs) = groupIdxs g ++ allIdxs gs := by
  simp [allIdxs]

/-- The removal excess of a cons of groups. -/
theorem dupExcess_cons (g : DuplicateGroup) (gs : List DuplicateGroup) :
    dupExcess (g :: gs) = (g.records.length - 1) + dupExcess gs := by
  simp [dupExcess]

/-- Folding the per-group removal body over groups with pairwise distinct
in-range member indices collects a removal set that is distinct, in range,
and of size the sum of the group sizes minus one each. -/
theorem removalFold_spec (le : Entry → Entry → Bool) (reason : String) (n : Nat) :
    ∀ (gs : List DuplicateGroup) (st : List Nat × List MergeAction),
      (allIdxs gs).Nodup → (∀ x ∈ allIdxs gs, x < n) → (∀ g ∈ gs, 2 ≤ g.records.length) →
      st.1.Nodup → (∀ x ∈ st.1, x < n) → (∀ x ∈ st.1, x ∉ allIdxs gs) →
      ((gs.foldl (removalStep le reason) st).1.Nodup ∧
       (∀ x ∈ (gs.foldl (removalStep le reason) st).1, x < n) ∧
       (gs.foldl (removalStep le reason) st).1.length = st.1.length + dupExcess gs) := by
  intro gs
  induction gs with
  | nil =>
    intro st h1 h2 h3 h4 h5 h6
    exact ⟨h4, h5, by simp [dupExcess]⟩
  | cons g gs ih =>
    intro st h1 h2 h3 h4 h5 h6
    rw [allIdxs_cons] at h1 h2 h6
    have hgnd : (groupIdxs g).Nodup := (List.nodup_append.mp h1).1
    have hgsnd : (allIdxs gs).Nodup := (List.nodup_append.mp h1).2.1
    have hgdisj : (groupIdxs g).Disjoint (allIdxs gs) := (List.nodup_append.mp h1).2.2
    have hgbd : ∀ x ∈ groupIdxs g, x < n :=
      fun x hx => h2 x (List.mem_append.mpr (Or.inl hx))
    have hgsbd : ∀ x ∈ allIdxs gs, x < n :=
      fun x hx => h2 x (List.mem_append.mpr (Or.inr hx))
    have hsort := jsArraySort_perm le g.records
    rw [List.foldl_cons]
    have hg2 : 2 ≤ g.records.length := h3 g (List.mem_cons_self _ _)
    rcases heq : jsArraySort le g.records with _ | ⟨kept, restSorted⟩
    · rw [heq] at hsort
      have : g.records = [] := hsort.symm.eq_nil
      rw [this] at hg2
      simp at hg2
    · have hstep : removalStep le reason st g =
          restSorted.foldl (fun st2 e => (jsSetAdd st2.1 e.index,
            st2.2 ++ [MergeAction.remove reason g.groupId e.index e.record kept.record])) st := by
        unfold removalStep
        rw [heq]
      rw [hstep]
      rw [heq] at hsort
      have hpermIdx : ((kept :: restSorted).map Entry.index).Perm (groupIdxs g) :=
        hsort.map Entry.index
      simp only [List.map_cons] at hpermIdx
      have hconsNodup : (kept.index :: restSorted.map Entry.index).Nodup :=
        hpermIdx.nodup_iff.mpr hgnd
      have hrsNodup : (restSorted.map Entry.index).Nodup := (List.nodup_cons.mp hconsNodup).2
      have hrsSub : ∀ x ∈ restSorted.map Entry.index, x ∈ groupIdxs g :=
        fun x hx => hpermIdx.mem_iff.mp (List.mem_cons_of_mem _ hx)
      have hrsDisjSt : ∀ x ∈ restSorted.map Entry.index, x ∉ st.1 := by
        intro x hx hmem
        exact h6 x hmem (List.mem_append.mpr (Or.inl (hrsSub x hx)))
      have hrsLen : (restSorted.map Entry.index).length = g.records.length - 1 := by
        have := hpermIdx.length_eq
        simp only [List.length_cons, List.length_map] at this ⊢
        have hgl : (groupIdxs g).length = g.records.length := by
          simp [groupIdxs]
        omega
      have hinner := removal_inner_fst reason g.groupId kept restSorted st
      have hsetspec := foldl_jsSetAdd_spec (restSorted.map Entry.index) st.1 hrsNodup hrsDisjSt
      set st2 := restSorted.foldl (fun st2 e => (jsSetAdd st2.1 e.index,
        st2.2 ++ [MergeAction.remove reason g.groupId e.index e.record kept.record])) st with hst2
      have hst2mem : ∀ y, y ∈ st2.1 ↔ y ∈ st.1 ∨ y ∈ restSorted.map Entry.index := by
        intro y
        rw [hinner]
        exact hsetspec.2.1 y
      have hst2len : st2.1.length = st.1.length + (g.records.length - 1) := by
        rw [hinner, hsetspec.1, hrsLen]
      have hst2nd : st2.1.Nodup := by
        rw [hinner]
        exact hsetspec.2.2 h4
      have hres := ih st2 hgsnd hgsbd (fun g2 hg2 => h3 g2 (List.mem_cons_of_mem _ hg2))
        hst2nd
        (fun x hx => by
          rcases (hst2mem x).mp hx with h | h
          · exact h5 x h
          · exact hgbd x (hrsSub x h))
        (fun x hx hmem => by
          rcases (hst2mem x).mp hx with h | h
          · exact h6 x h (List.mem_append.mpr (Or.inr hmem))
          · exact hgdisj (hrsSub x h) hmem)
      refine ⟨hres.1, hres.2.1, ?_⟩
      rw [hres.2.2, hst2len, dupExcess_cons]
      omega

/-- Folding the per-group merge body preserves the processed-collection
length and collects a removal set that is distinct, in range, and of size
the sum of the group sizes minus one each. -/
theorem mergeFold_spec (n : Nat) :
    ∀ (gs : List DuplicateGroup) (st : List Record × List Nat × List MergeAction),
      (allIdxs gs).Nodup → (∀ x ∈ allIdxs gs, x < n) → (∀ g ∈ gs, 2 ≤ g.records.length) →
      st.2.1.Nodup → (∀ x ∈ st.2.1, x < n) → (∀ x ∈ st.2.1, x ∉ allIdxs gs) →
      ((gs.foldl mergeStep st).1.length = st.1.length ∧
       (gs.foldl mergeStep st).2.1.Nodup ∧
       (∀ x ∈ (gs.foldl mergeStep st).2.1, x < n) ∧
       (gs.foldl mergeStep st).2.1.length = st.2.1.length + dupExcess gs) := by
  intro gs
  induction gs with
  | nil =>
    intro st h1 h2 h3 h4 h5 h6
    exact ⟨rfl, h4, h5, by simp [dupExcess]⟩
  | cons g gs ih =>
    intro st h1 h2 h3 h4 h5 h6
    rw [allIdxs_cons] at h1 h2 h6
    have hgnd : (groupIdxs g).Nodup := (List.nodup_append.mp h1).1
    have hgsnd : (allIdxs gs).Nodup := (List.nodup_append.mp h1).2.1
    have hgdisj : (groupIdxs g).Disjoint (allIdxs gs) := (List.nodup_append.mp h1).2.2
    have hgbd : ∀ x ∈ groupIdxs g, x < n :=
      fun x hx => h2 x (List.mem_append.mpr (Or.inl hx))
    have hgsbd : ∀ x ∈ allIdxs gs, x < n :=
      fun x hx => h2 x (List.mem_append.mpr (Or.inr hx))
    have hsort := jsArraySort_perm leMergeOrder g.records
    rw [List.foldl_cons]
    have hg2 : 2 ≤ g.records.length := h3 g (List.mem_cons_self _ _)
    rcases heq : jsArraySort leMergeOrder g.records with _ | ⟨base, restSorted⟩
    · rw [heq] at hsort
      have : g.records = [] := hsort.symm.eq_nil
      rw [this] at hg2
      simp at hg2
    · have hstep : mergeStep st g =
          ((st.1.set base.index (restSorted.foldl
              (fun p e => (mergeInto p.1 e.record, jsSetAdd p.2 e.index))
              (base.record, st.2.1)).1),
           (restSorted.foldl (fun p e => (mergeInto p.1 e.record, jsSetAdd p.2 e.index))
              (base.record, st.2.1)).2,
           st.2.2 ++ [MergeAction.merge "duplicate_merge" g.groupId base.index
             (restSorted.map Entry.index) (restSorted.foldl
               (fun p e => (mergeInto p.1 e.record, jsSetAdd p.2 e.index))
               (base.record, st.2.1)).1]) := by
        unfold mergeStep
        rw [heq]
      rw [hstep]
      rw [heq] at hsort
      have hpermIdx : ((base :: restSorted).map Entry.index).Perm (groupIdxs g) :=
        hsort.map Entry.index
      simp only [List.map_cons] at hpermIdx
      have hconsNodup : (base.index :: restSorted.map Entry.index).Nodup :=
        hpermIdx.nodup_iff.mpr hgnd
      have hrsNodup : (restSorted.map Entry.index).Nodup := (List.nodup_cons.mp hconsNodup).2
      have hrsSub : ∀ x ∈ restSorted.map Entry.index, x ∈ groupIdxs g :=
        fun x hx => hpermIdx.mem_iff.mp (List.mem_cons_of_mem _ hx)
      have hrsDisjSt : ∀ x ∈ restSorted.map Entry.index, x ∉ st.2.1 := by
        intro x hx hmem
        exact h6 x hmem (List.mem_append.mpr (Or.inl (hrsSub x hx)))
      have hrsLen : (restSorted.map Entry.index).length = g.records.length - 1 := by
        have := hpermIdx.length_eq
        simp only [List.length_cons, List.length_map] at this ⊢
        have hgl : (groupIdxs g).length = g.records.length := by simp [groupIdxs]
        omega
      have hinner := merge_inner_snd restSorted (base.record, st.2.1)
      have hsetspec := foldl_jsSetAdd_spec (restSorted.map Entry.index) st.2.1 hrsNodup hrsDisjSt
      have hmem2 : ∀ y, y ∈ (restSorted.foldl
          (fun p e => (mergeInto p.1 e.record, jsSetAdd p.2 e.index))
          (base.record, st.2.1)).2 ↔ y ∈ st.2.1 ∨ y ∈ restSorted.map Entry.index := by
        intro y
        rw [hinner]
        exact hsetspec.2.1 y
      have hlen2 : (restSorted.foldl
          (fun p e => (mergeInto p.1 e.record, jsSetAdd p.2 e.index))
          (base.record, st.2.1)).2.length = st.2.1.length + (g.records.length - 1) := by
        rw [hinner, hsetspec.1, hrsLen]
      have hnd2 : (restSorted.foldl
          (fun p e => (mergeInto p.1 e.record, jsSetAdd p.2 e.index))
          (base.record, st.2.1)).2.Nodup := by
        rw [hinner]
        exact hsetspec.2.2 h4
      have hres := ih ((st.1.set base.index (restSorted.foldl
              (fun p e => (mergeInto p.1 e.record, jsSetAdd p.2 e.index))
              (base.record, st.2.1)).1),
           (restSorted.foldl (fun p e => (mergeInto p.1 e.record, jsSetAdd p.2 e.index))
              (base.record, st.2.1)).2,
           st.2.2 ++ [MergeAction.merge "duplicate_merge" g.groupId base.index
             (restSorted.map Entry.index) (restSorted.foldl
               (fun p e => (mergeInto p.1 e.record, jsSetAdd p.2 e.index))
               (base.record, st.2.1)).1])
        hgsnd hgsbd (fun g2 hgmem => h3 g2 (List.mem_cons_of_mem _ hgmem))
        hnd2
        (fun x hx => by
          rcases (hmem2 x).mp hx with h | h
          · exact h5 x h
          · exact hgbd x (hrsSub x h))
        (fun x hx hmem => by
          rcases (hmem2 x).mp hx with h | h
          · exact h6 x h (List.mem_append.mpr (Or.inr hmem))
          · exact hgdisj (hrsSub x h) hmem)
      refine ⟨?_, hres.2.1, hres.2.2.1, ?_⟩
      · rw [hres.1]
        simp [List.length_set]
      · rw [hres.2.2.2, hlen2, dupExcess_cons]
        omega

/-- The annotation loop of the review strategy preserves the length of the
processed collection. -/
theorem markStep_inner_length (g : DuplicateGroup) :
    ∀ (es : List Entry) (st : List Record × List MergeAction),
      ((es.foldl (fun st2 e =>
        (updateAt st2.1 e.index (fun r =>
           { r with duplicate_flag := some (String.append "DUPLICATE_GROUP_" (toString g.groupId))
                    duplicate_count := some g.records.length
                    completeness_score := some (calculateCompletenessScore e.record) }),
         st2.2 ++ [MergeAction.mark "duplicate_review" g.groupId e.index e.record])) st).1).length
      = st.1.length := by
  intro es
  induction es with
  | nil => intro st; rfl
  | cons e es ih =>
    intro st
    rw [List.foldl_cons, ih]
    exact updateAt_length _ _ _

/-- One review group step preserves the processed-collection length. -/
theorem markStep_fst_length (g : DuplicateGroup) (st : List Record × List MergeAction) :
    (markStep st g).1.length = st.1.length := by
  unfold markStep
  exact markStep_inner_length g g.records st

/-- The review fold preserves the processed-collection length. -/
theorem markFold_fst_length :
    ∀ (gs : List DuplicateGroup) (st : List Record × List MergeAction),
      ((gs.foldl markStep st).1).length = st.1.length := by
  intro gs
  induction gs with
  | nil => intro st; rfl
  | cons g gs ih =>
    intro st
    rw [List.foldl_cons, ih, markStep_fst_length]

/-- Counting identity for positional filtering: the records kept plus the
distinct in-range removal indices account for the whole collection. -/
theorem filterIdx_len_add :
    ∀ (data : List Record) (k : Nat) (rm : List Nat),
      rm.Nodup → (∀ x ∈ rm, k ≤ x ∧ x < k + data.length) →
      (((withIdx k data).filter (fun p => decide (p.1 ∉ rm))).map Prod.snd).length + rm.length
        = data.length := by
  intro data
  induction data with
  | nil =>
    intro k rm h1 h2
    have hrm : rm = [] := by
      cases rm with
      | nil => rfl
      | cons x xs =>
        have := h2 x (List.mem_cons_self _ _)
        simp only [List.length_nil] at this
        omega
    subst hrm
    simp [withIdx]
  | cons r rest ih =>
    intro k rm h1 h2
    simp only [withIdx, List.filter_cons]
    by_cases hk : k ∈ rm
    · rw [if_neg (by simp [hk])]
      have hcongr : (withIdx (k + 1) rest).filter (fun p => decide (p.1 ∉ rm)) =
          (withIdx (k + 1) rest).filter (fun p => decide (p.1 ∉ rm.erase k)) := by
        apply List.filter_congr
        intro p hp
        have hfst : p.1 ∈ (withIdx (k + 1) rest).map Prod.fst :=
          List.mem_map_of_mem Prod.fst hp
        have hbd := withIdx_fst_bound rest (k + 1) p.1 hfst
        have hne : p.1 ≠ k := by omega
        apply decide_eq_decide.mpr
        constructor
        · intro hnm hmem
          exact hnm (List.mem_of_mem_erase hmem)
        · intro hnm hmem
          exact hnm ((List.mem_erase_of_ne hne).mpr hmem)
      rw [hcongr]
      have hih := ih (k + 1) (rm.erase k) (h1.erase k) ?_
      · have hlen : (rm.erase k).length = rm.length - 1 := List.length_erase_of_mem hk
        have hpos : 1 ≤ rm.length := List.length_pos.mpr (fun h => by simp [h] at hk)
        simp only [List.length_cons]
        omega
      · intro x hx
        obtain ⟨hxne, hxrm⟩ := (List.Nodup.mem_erase_iff h1).mp hx
        have := h2 x hxrm
        simp only [List.length_cons] at this
        constructor
        · omega
        · omega
    · rw [if_pos (by simp [hk])]
      simp only [List.map_cons, List.length_cons]
      have hih := ih (k + 1) rm h1 ?_
      · omega
      · intro x hx
        have := h2 x hx
        have hxne : x ≠ k := fun h => hk (h ▸ hx)
        simp only [List.length_cons] at this
        constructor
        · omega
        · omega

/-- Removing a distinct in-range set of positions shortens the collection
by exactly the size of that set. -/
theorem removeByPositions_length (data : List Record) (rm : List Nat)
    (h1 : rm.Nodup) (h2 : ∀ x ∈ rm, x < data.length) :
    (removeByPositions data rm).length = data.length - rm.length := by
  unfold removeByPositions
  have := filterIdx_len_add data 0 rm h1
    (fun x hx => ⟨Nat.zero_le x, by have := h2 x hx; omega⟩)
  omega

/-- C5: for every input collection and the duplicate groups produced from
it by the clustering pass, the review policy preserves the collection
length exactly, and each of remove_oldest, remove_newest and merge returns
a collection of length the input length minus the sum over groups of the
group size minus one. -/
theorem claim_C5_lengths (t : Thresholds) (data : List Record)
    (duplicateGroups : List DuplicateGroup)
    (h : duplicateGroups = findDuplicatesInDataset t data) :
    (markDuplicatesForReview data duplicateGroups).1.length = data.length ∧
    (removeOldestDuplicates data duplicateGroups).1.length
      = data.length - dupExcess duplicateGroups ∧
    (removeNewestDuplicates data duplicateGroups).1.length
      = data.length - dupExcess duplicateGroups ∧
    (mergeDuplicates data duplicateGroups).1.length
      = data.length - dupExcess duplicateGroups := by
  subst h
  obtain ⟨hnd, hbd, hsz⟩ := findDuplicatesInDataset_idx_spec t data
  refine ⟨?_, ?_, ?_, ?_⟩
  · unfold markDuplicatesForReview
    rw [markFold_fst_length]
    simp
  · have hspec := removalFold_spec leDateDesc "older_duplicate" data.length
      (findDuplicatesInDataset t data) ([], []) hnd hbd hsz List.nodup_nil
      (by simp) (by simp)
    show (removeByPositions data ((findDuplicatesInDataset t data).foldl
      (removalStep leDateDesc "older_duplicate") ([], [])).1).length = _
    rw [removeByPositions_length data _ hspec.1 hspec.2.1, hspec.2.2]
    simp
  · have hspec := removalFold_spec leDateAsc "newer_duplicate" data.length
      (findDuplicatesInDataset t data) ([], []) hnd hbd hsz List.nodup_nil
      (by simp) (by simp)
    show (removeByPositions data ((findDuplicatesInDataset t data).foldl
      (removalStep leDateAsc "newer_duplicate") ([], [])).1).length = _
    rw [removeByPositions_length data _ hspec.1 hspec.2.1, hspec.2.2]
    simp
  · have hspec := mergeFold_spec data.length (findDuplicatesInDataset t data)
      (data, [], []) hnd hbd hsz List.nodup_nil (by simp) (by simp)
    show (removeByPositions ((findDuplicatesInDataset t data).foldl mergeStep
        (data, [], [])).1
      ((findDuplicatesInDataset t data).foldl mergeStep (data, [], [])).2.1).length = _
    have hfst : ((findDuplicatesInDataset t data).foldl mergeStep (data, [], [])).1.length
        = data.length := hspec.1
    have hsnd : ((findDuplicatesInDataset t data).foldl mergeStep (data, [], [])).2.1.length
        = 0 + dupExcess (findDuplicatesInDataset t data) := hspec.2.2.2
    have hbds : ∀ x ∈ ((findDuplicatesInDataset t data).foldl mergeStep (data, [], [])).2.1,
        x < ((findDuplicatesInDataset t data).foldl mergeStep (data, [], [])).1.length := by
      intro x hx
      have h1 := hspec.2.2.1 x hx
      omega
    rw [removeByPositions_length _ _ hspec.2.1 hbds]
    omega

/-- C5 witness: the four length equations instantiated on the concrete
three-record collection and its computed duplicate groups. -/
theorem claim_C5_witness :
    (markDuplicatesForReview [recA, recB, recC]
        (findDuplicatesInDataset defaultThresholds [recA, recB, recC])).1.length =
      ([recA, recB, recC] : List Record).length ∧
    (removeOldestDuplicates [recA, recB, recC]
        (findDuplicatesInDataset defaultThresholds [recA, recB, recC])).1.length =
      ([recA, recB, recC] : List Record).length -
        dupExcess (findDuplicatesInDataset defaultThresholds [recA, recB, recC]) ∧
    (removeNewestDuplicates [recA, recB, recC]
        (findDuplicatesInDataset defaultThresholds [recA, recB, recC])).1.length =
      ([recA, recB, recC] : List Record).length -
        dupExcess (findDuplicatesInDataset defaultThresholds [recA, recB, recC]) ∧
    (mergeDuplicates [recA, recB, recC]
        (findDuplicatesInDataset defaultThresholds [recA, recB, recC])).1.length =
      ([recA, recB, recC] : List Record).length -
        dupExcess (findDuplicatesInDataset defaultThresholds [recA, recB, recC]) :=
  claim_C5_lengths defaultThresholds [recA, recB, recC] _ rfl


/-- The head surviving dropWhile fails the dropped predicate. -/
theorem head?_dropWhile_not (p : Char → Bool) :
    ∀ (l : List Char) (c : Char), (l.dropWhile p).head? = some c → p c = false := by
  intro l
  induction l with
  | nil => intro c h; simp at h
  | cons a t ih =>
    intro c h
    by_cases hp : p a = true
    · rw [List.dropWhile_cons, if_pos hp] at h
      exact ih c h
    · rw [List.dropWhile_cons, if_neg hp] at h
      simp only [List.head?_cons, Option.some.injEq] at h
      rw [← h]
      exact Bool.eq_false_iff.mpr hp

/-- dropWhile keeps the last element of the list when anything survives. -/
theorem getLast?_dropWhile (p : Char → Bool) :
    ∀ (l : List Char) (c : Char), (l.dropWhile p).getLast? = some c → l.getLast? = some c := by
  intro l
  induction l with
  | nil => intro c h; simp at h
  | cons a t ih =>
    intro c h
    by_cases hp : p a = true
    · rw [List.dropWhile_cons, if_pos hp] at h
      have ht : t ≠ [] := by
        intro he
        rw [he] at h
        simp at h
      rcases List.exists_cons_of_ne_nil ht with ⟨b, t2, rfl⟩
      rw [List.getLast?_cons_cons]
      exact ih c h
    · rw [List.dropWhile_cons, if_neg hp] at h
      exact h

/-- A trimmed list never starts with whitespace. -/
theorem jsTrim_head_not_space (l : List Char) (c : Char) :
    (jsTrim l).head? = some c → jsIsSpace c = false := by
  intro h
  unfold jsTrim at h
  rw [List.head?_reverse] at h
  have := getLast?_dropWhile jsIsSpace ((l.dropWhile jsIsSpace).reverse) c h
  rw [List.getLast?_reverse] at this
  exact head?_dropWhile_not jsIsSpace l c this

/-- A trimmed list never ends with whitespace. -/
theorem jsTrim_getLast_not_space (l : List Char) (c : Char) :
    (jsTrim l).getLast? = some c → jsIsSpace c = false := by
  intro h
  unfold jsTrim at h
  rw [List.getLast?_reverse] at h
  exact head?_dropWhile_not jsIsSpace _ c h

/-- dropWhile is the identity when the head already fails the predicate. -/
theorem dropWhile_eq_self_of_head (p : Char → Bool) (l : List Char)
    (h : ∀ c, l.head? = some c → p c = false) : l.dropWhile p = l := by
  cases l with
  | nil => rfl
  | cons a t =>
    rw [List.dropWhile_cons, if_neg]
    simp [h a rfl]

/-- Trimming is the identity on a list with no whitespace at either end. -/
theorem jsTrim_eq_self (l : List Char)
    (h1 : ∀ c, l.head? = some c → jsIsSpace c = false)
    (h2 : ∀ c, l.getLast? = some c → jsIsSpace c = false) : jsTrim l = l := by
  unfold jsTrim
  rw [dropWhile_eq_self_of_head jsIsSpace l h1]
  rw [dropWhile_eq_self_of_head jsIsSpace l.reverse
    (fun c hc => h2 c (by rw [List.head?_reverse] at hc; exact hc))]
  exact List.reverse_reverse l

/-- Collapsing whitespace never empties a non-empty list. -/
theorem collapseSpaces_ne_nil : ∀ (l : List Char), l ≠ [] → collapseSpaces l ≠ [] := by
  intro l
  induction l with
  | nil => intro h; exact absurd rfl h
  | cons c t ih =>
    intro _
    cases t with
    | nil =>
      by_cases hc : jsIsSpace c = true
      · simp [collapseSpaces, hc]
      · simp [collapseSpaces, hc]
    | cons d rest =>
      by_cases hc : jsIsSpace c = true
      · by_cases hd : jsIsSpace d = true
        · simp only [collapseSpaces, if_pos hc, if_pos hd]
          exact ih (by simp)
        · simp [collapseSpaces, hc, hd]
      · simp [collapseSpaces, hc]

/-- Collapsing commutes over a non-whitespace head. -/
theorem collapseSpaces_cons_not_space (c : Char) (t : List Char) (hc : jsIsSpace c = false) :
    collapseSpaces (c :: t) = c :: collapseSpaces t := by
  cases t with
  | nil => simp [collapseSpaces, hc]
  | cons d rest => simp [collapseSpaces, hc]

/-- Every character of a collapsed list is a space or came from the input. -/
theorem collapseSpaces_subset :
    ∀ (l : List Char) (c : Char), c ∈ collapseSpaces l → c = ' ' ∨ c ∈ l := by
  intro l
  induction l with
  | nil => intro c h; simp [collapseSpaces] at h
  | cons a t ih =>
    intro c h
    cases t with
    | nil =>
      by_cases ha : jsIsSpace a = true
      · simp [collapseSpaces, ha] at h
        exact Or.inl h
      · simp [collapseSpaces, ha] at h
        exact Or.inr (by simp [h])
    | cons d rest =>
      by_cases ha : jsIsSpace a = true
      · by_cases hd : jsIsSpace d = true
        · rw [collapseSpaces, if_pos ha, if_pos hd] at h
          rcases ih c h with h1 | h1
          · exact Or.inl h1
          · exact Or.inr (List.mem_cons_of_mem _ h1)
        · rw [collapseSpaces, if_pos ha, if_neg (by simp [hd])] at h
          rcases List.mem_cons.mp h with h1 | h1
          · exact Or.inl h1
          · rcases ih c h1 with h2 | h2
            · exact Or.inl h2
            · exact Or.inr (List.mem_cons_of_mem _ h2)
      · rw [collapseSpaces, if_neg (by simp [ha])] at h
        rcases List.mem_cons.mp h with h1 | h1
        · exact Or.inr (by simp [h1])
        · rcases ih c h1 with h2 | h2
          · exact Or.inl h2
          · exact Or.inr (List.mem_cons_of_mem _ h2)

/-- Every whitespace character of a collapsed list is the ordinary space. -/
theorem collapseSpaces_space_eq_blank :
    ∀ (l : List Char) (c : Char), c ∈ collapseSpaces l → jsIsSpace c = true → c = ' ' := by
  intro l
  induction l with
  | nil => intro c h; simp [collapseSpaces] at h
  | cons a t ih =>
    intro c h hsp
    cases t with
    | nil =>
      by_cases ha : jsIsSpace a = true
      · simp [collapseSpaces, ha] at h
        exact h
      · simp [collapseSpaces, ha] at h
        rw [h] at hsp
        rw [hsp] at ha
        exact absurd rfl ha
    | cons d rest =>
      by_cases ha : jsIsSpace a = true
      · by_cases hd : jsIsSpace d = true
        · rw [collapseSpaces, if_pos ha, if_pos hd] at h
          exact ih c h hsp
        · rw [collapseSpaces, if_pos ha, if_neg (by simp [hd])] at h
          rcases List.mem_cons.mp h with h1 | h1
          · exact h1
          · exact ih c h1 hsp
      · rw [collapseSpaces, if_neg (by simp [ha])] at h
        rcases List.mem_cons.mp h with h1 | h1
        · rw [h1] at hsp
          rw [hsp] at ha
          exact absurd rfl ha
        · exact ih c h1 hsp

/-- Collapsing preserves a non-whitespace head. -/
theorem collapseSpaces_head_not_space (l : List Char)
    (h : ∀ c, l.head? = some c → jsIsSpace c = false) :
    ∀ c, (collapseSpaces l).head? = some c → jsIsSpace c = false := by
  cases l with
  | nil => intro c hc; simp [collapseSpaces] at hc
  | cons a t =>
    intro c hc
    have ha : jsIsSpace a = false := h a rfl
    rw [collapseSpaces_cons_not_space a t ha] at hc
    simp only [List.head?_cons, Option.some.injEq] at hc
    rw [← hc]
    exact ha

/-- Collapsing preserves a non-whitespace last element. -/
theorem collapseSpaces_getLast_not_space :
    ∀ (l : List Char), (∀ c, l.getLast? = some c → jsIsSpace c = false) →
      ∀ c, (collapseSpaces l).getLast? = some c → jsIsSpace c = false := by
  intro l
  induction l with
  | nil => intro h c hc; simp [collapseSpaces] at hc
  | cons a t ih =>
    intro h c hc
    cases t with
    | nil =>
      have ha : jsIsSpace a = false := h a rfl
      rw [show collapseSpaces [a] = [a] from by rw [collapseSpaces, if_neg (by simp [ha])]] at hc
      simp only [List.getLast?_singleton, Option.some.injEq] at hc
      rw [← hc]
      exact ha
    | cons d rest =>
      have htail : ∀ c2, (d :: rest).getLast? = some c2 → jsIsSpace c2 = false := by
        intro c2 hc2
        exact h c2 (by rw [List.getLast?_cons_cons]; exact hc2)
      have hne : collapseSpaces (d :: rest) ≠ [] := collapseSpaces_ne_nil _ (by simp)
      rcases List.exists_cons_of_ne_nil hne with ⟨e, es, heq⟩
      by_cases ha : jsIsSpace a = true
      · by_cases hd : jsIsSpace d = true
        · rw [collapseSpaces, if_pos ha, if_pos hd] at hc
          exact ih htail c hc
        · rw [collapseSpaces, if_pos ha, if_neg (by simp [hd]), heq,
            List.getLast?_cons_cons, ← heq] at hc
          exact ih htail c hc
      · rw [collapseSpaces, if_neg (by simp [ha]), heq,
          List.getLast?_cons_cons, ← heq] at hc
        exact ih htail c hc

/-- Collapsing whitespace runs is idempotent. -/
theorem collapseSpaces_idem : ∀ (l : List Char),
    collapseSpaces (collapseSpaces l) = collapseSpaces l := by
  intro l
  induction l with
  | nil => rfl
  | cons a t ih =>
    cases t with
    | nil =>
      by_cases ha : jsIsSpace a = true
      · simp [collapseSpaces, ha]
      · simp [collapseSpaces, ha]
    | cons d rest =>
      by_cases ha : jsIsSpace a = true
      · by_cases hd : jsIsSpace d = true
        · rw [collapseSpaces, if_pos ha, if_pos hd, ih]
        · rw [collapseSpaces, if_pos ha, if_neg (by simp [hd])]
          rw [collapseSpaces_cons_not_space d rest (Bool.eq_false_iff.mpr hd)] at ih ⊢
          have hsp : jsIsSpace ' ' = true := by decide
          rw [collapseSpaces, if_pos hsp, if_neg (by simp [hd]), ih]
      · rw [collapseSpaces, if_neg (by simp [ha])]
        rw [collapseSpaces_cons_not_space a _ (Bool.eq_false_iff.mpr ha), ih]

/-- Every character of a trimmed list came from the input. -/
theorem jsTrim_subset (l : List Char) (c : Char) (h : c ∈ jsTrim l) : c ∈ l := by
  unfold jsTrim at h
  rw [List.mem_reverse] at h
  have h2 := List.Sublist.mem h (List.dropWhile_sublist _)
  rw [List.mem_reverse] at h2
  exact List.Sublist.mem h2 (List.dropWhile_sublist _)

/-- The leading word-joiner strip is the identity on word-joiner-free
input. -/
theorem stripLeadingWordJoiner_eq_self (l : List Char)
    (h : ∀ c ∈ l, c ≠ wordJoinerChar) : stripLeadingWordJoiner l = l := by
  unfold stripLeadingWordJoiner
  split
  case h_1 c rest hd =>
    rw [if_neg]
    apply h
    have hc : c ∈ l.dropWhile jsIsSpace := by rw [hd]; exact List.mem_cons_self _ _
    exact List.Sublist.mem hc (List.dropWhile_sublist _)
  case h_2 => rfl

/-- A character accepted by the zero-width filter is one of the listed
zero-width characters. -/
theorem isZeroWidthOrBom_mem (a : Char) (h : isZeroWidthOrBom a = true) :
    a ∈ zeroWidthChars := by
  unfold isZeroWidthOrBom at h
  rw [decide_eq_true_eq] at h
  have hval : a = Char.ofNat a.toNat := (Char.ofNat_toNat a).symm
  rcases h with ⟨h1, h2⟩ | h3
  · have hcases : a.toNat = 8203 ∨ a.toNat = 8204 ∨ a.toNat = 8205 := by omega
    rcases hcases with h | h | h <;> (rw [h] at hval; rw [hval]; decide)
  · rw [h3] at hval; rw [hval]; decide

/-- On input free of zero-width characters, the whole cleaning pipeline
reduces to trimming followed by whitespace collapsing: the three
invisible-character stages are each the identity there. -/
theorem cleanText_eq_collapse_trim (s : String) (hs : s ≠ "")
    (hz : ∀ c ∈ s.data, c ∉ zeroWidthChars) :
    cleanText s = String.mk (collapseSpaces (jsTrim s.data)) := by
  have hy : ∀ c ∈ collapseSpaces (jsTrim s.data), c = ' ' ∨ c ∈ s.data := by
    intro c hc
    rcases collapseSpaces_subset _ c hc with h | h
    · exact Or.inl h
    · exact Or.inr (jsTrim_subset _ c h)
  have hyz : ∀ c ∈ collapseSpaces (jsTrim s.data), c ∉ zeroWidthChars := by
    intro c hc
    rcases hy c hc with h | h
    · rw [h]; decide
    · exact hz c h
  unfold cleanText
  rw [if_neg hs]
  rw [stripLeadingWordJoiner_eq_self _
    (fun c hc hwj => hyz c hc (by rw [hwj]; decide))]
  rw [show List.filter (fun c => decide (c ≠ wordJoinerChar)) (collapseSpaces (jsTrim s.data))
      = collapseSpaces (jsTrim s.data) from List.filter_eq_self.mpr (by
    intro a ha
    rw [decide_eq_true_eq]
    intro hwj
    exact hyz a ha (by rw [hwj]; decide))]
  rw [show (collapseSpaces (jsTrim s.data)).map (fun c => if c = nbspChar then ' ' else c)
      = collapseSpaces (jsTrim s.data) from by
    conv_rhs => rw [← List.map_id (collapseSpaces (jsTrim s.data))]
    apply List.map_congr_left
    intro a ha
    have hne : ¬ (a = nbspChar) := by
      intro habs
      have hblank : a = ' ' := collapseSpaces_space_eq_blank _ a ha (by rw [habs]; decide)
      rw [habs] at hblank
      exact absurd hblank (by decide)
    rw [if_neg hne]
    rfl]
  rw [show List.filter (fun c => !(isZeroWidthOrBom c)) (collapseSpaces (jsTrim s.data))
      = collapseSpaces (jsTrim s.data) from List.filter_eq_self.mpr (by
    intro a ha
    cases hib : isZeroWidthOrBom a with
    | false => rfl
    | true => exact absurd (isZeroWidthOrBom_mem a hib) (hyz a ha))]

/-- C7 amended: text cleaning is idempotent on every input containing none
of the zero-width characters U+200B to U+200D, U+2060 and U+FEFF; the
counterexample shows the restriction is necessary, since removing such a
character after whitespace handling can expose a fresh leading space. -/
theorem claim_C7_amended (s : String) (hz : ∀ c ∈ s.data, c ∉ zeroWidthChars) :
    cleanText (cleanText s) = cleanText s := by
  by_cases hs : s = ""
  · rw [hs]
    rfl
  · rw [cleanText_eq_collapse_trim s hs hz]
    have hy : ∀ c ∈ collapseSpaces (jsTrim s.data), c = ' ' ∨ c ∈ s.data := by
      intro c hc
      rcases collapseSpaces_subset _ c hc with h | h
      · exact Or.inl h
      · exact Or.inr (jsTrim_subset _ c h)
    by_cases hy0 : collapseSpaces (jsTrim s.data) = []
    · rw [hy0]
      rfl
    · have hsne : String.mk (collapseSpaces (jsTrim s.data)) ≠ "" := by
        intro habs
        exact hy0 (congrArg String.data habs)
      have hyz2 : ∀ c ∈ (String.mk (collapseSpaces (jsTrim s.data))).data,
          c ∉ zeroWidthChars := by
        intro c hc
        rcases hy c hc with h | h
        · rw [h]; decide
        · exact hz c h
      rw [cleanText_eq_collapse_trim _ hsne hyz2]
      show String.mk (collapseSpaces (jsTrim (collapseSpaces (jsTrim s.data))))
        = String.mk (collapseSpaces (jsTrim s.data))
      congr 1
      rw [jsTrim_eq_self _
        (collapseSpaces_head_not_space _ (jsTrim_head_not_space s.data))
        (collapseSpaces_getLast_not_space _ (jsTrim_getLast_not_space s.data))]
      exact collapseSpaces_idem (jsTrim s.data)

/-- C7 witness: the amended idempotence applied to a concrete string of
ordinary letters and spaces. -/
theorem claim_C7_witness :
    (∀ c ∈ ("  hola   mundo  " : String).data, c ∉ zeroWidthChars) ∧
    cleanText (cleanText "  hola   mundo  ") = cleanText "  hola   mundo  " :=
  ⟨by decide, claim_C7_amended "  hola   mundo  " (by decide)⟩
